import Mathlib

/-!
Verification development for the squad-goals partition/boundary engine
(`src/frontend/src/pages/SquadGoalEntryPage.tsx`).

Modelling conventions (shallow embedding):

* JavaScript `Date` values are modelled by the structure `DT` holding the
  civil UTC fields (year, month 1-12, day 1-31, milliseconds of day).
  JavaScript compares `Date` objects by their epoch-milliseconds value;
  `DT.toMs` computes exactly that value (up to a constant epoch shift,
  which is irrelevant to every comparison), so `toMs`-comparisons model
  `Date` comparisons.  The runtime timezone is assumed to be UTC, so the
  local-time `Date` methods (`setDate`, `setMonth`, ...) used by
  `calculateBoundaries` coincide with the UTC methods used by
  `changeBoundary`; both are modelled by the same civil-field operations.
* Boundary keys are the strings the code produces (`toISOString()` or its
  date part); string comparison (`<` on JS strings) is code-unit
  lexicographic comparison, modelled by `strLt` below.
* `parseInt(s, 10)` is modelled by `jsParseInt`, `new Date(isoString)` by
  `parseISO` (canonical ISO-8601 inputs; non-canonical strings give
  `none`, modelling an Invalid Date, whose comparisons are all false).
* The sequencer's `while` loop is modelled with explicit fuel; the
  termination theorem shows the result is fuel-independent once the fuel
  exceeds a computable bound.
-/

/-- Milliseconds in a UTC day. -/
def msPerDay : Nat := 86400000

/-- Gregorian leap-year test, as in the proleptic Gregorian calendar used
by JavaScript `Date`. -/
def isLeap (y : Int) : Bool :=
  decide ((y % 4 = 0 ∧ y % 100 ≠ 0) ∨ y % 400 = 0)

/-- Number of days in month `m` (1-12) of year `y`. -/
def daysInMonth (y : Int) (m : Nat) : Nat :=
  match m with
  | 1 => 31
  | 2 => if isLeap y then 29 else 28
  | 3 => 31
  | 4 => 30
  | 5 => 31
  | 6 => 30
  | 7 => 31
  | 8 => 31
  | 9 => 30
  | 10 => 31
  | 11 => 30
  | 12 => 31
  | _ => 31

/-- Days in year `y` before the first day of month `m` (cumulative sums
of `daysInMonth`, so `daysBeforeMonth y 1 = 0` and `daysBeforeMonth y 13`
is the year length). -/
def daysBeforeMonth (y : Int) (m : Nat) : Nat :=
  match m with
  | 0 => 0
  | 1 => 0
  | 2 => 31
  | 3 => 59 + (if isLeap y then 1 else 0)
  | 4 => 90 + (if isLeap y then 1 else 0)
  | 5 => 120 + (if isLeap y then 1 else 0)
  | 6 => 151 + (if isLeap y then 1 else 0)
  | 7 => 181 + (if isLeap y then 1 else 0)
  | 8 => 212 + (if isLeap y then 1 else 0)
  | 9 => 243 + (if isLeap y then 1 else 0)
  | 10 => 273 + (if isLeap y then 1 else 0)
  | 11 => 304 + (if isLeap y then 1 else 0)
  | 12 => 334 + (if isLeap y then 1 else 0)
  | _ => 365 + (if isLeap y then 1 else 0)

/-- Number of leap years in `[0, y)` (negatively counted for `y < 0`). -/
def leapsBefore (y : Int) : Int :=
  (y + 3) / 4 - (y + 99) / 100 + (y + 399) / 400

/-- Day number (days since 0000-01-01) of the first day of year `y`. -/
def dayNumOfYear (y : Int) : Int :=
  365 * y + leapsBefore y

/-- Civil date-time: UTC calendar fields of a JavaScript `Date`. -/
structure DT where
  year : Int
  month : Nat
  day : Nat
  ms : Nat
deriving DecidableEq, Repr

/-- Day number (days since 0000-01-01) of a civil date. -/
def dayNum (d : DT) : Int :=
  dayNumOfYear d.year + daysBeforeMonth d.year d.month + d.day - 1

/-- Epoch-milliseconds value of a `DT` (shifted so day 0 is 0000-01-01;
the shift cancels in every comparison and difference). -/
def DT.toMs (d : DT) : Int :=
  dayNum d * msPerDay + d.ms

/-- Well-formed civil fields: exactly the values a real JavaScript `Date`
can hold. -/
def DT.WF (d : DT) : Prop :=
  1 ≤ d.month ∧ d.month ≤ 12 ∧ 1 ≤ d.day ∧ d.day ≤ daysInMonth d.year d.month ∧
    d.ms < msPerDay

instance (d : DT) : Decidable d.WF := by
  unfold DT.WF; infer_instance

/-- Next calendar day (used to implement day arithmetic). -/
def succDay (d : DT) : DT :=
  if d.day < daysInMonth d.year d.month then ⟨d.year, d.month, d.day + 1, d.ms⟩
  else if d.month < 12 then ⟨d.year, d.month + 1, 1, d.ms⟩
  else ⟨d.year + 1, 1, 1, d.ms⟩

/-- Previous calendar day. -/
def predDay (d : DT) : DT :=
  if 1 < d.day then ⟨d.year, d.month, d.day - 1, d.ms⟩
  else if 1 < d.month then ⟨d.year, d.month - 1, daysInMonth d.year (d.month - 1), d.ms⟩
  else ⟨d.year - 1, 12, 31, d.ms⟩

/-- `setUTCDate(getUTCDate() + n)` / `setDate(getDate() + n)` (UTC runtime):
shift a date by `n` calendar days. -/
def addDays (d : DT) (n : Int) : DT :=
  if 0 ≤ n then succDay^[n.toNat] d else predDay^[(-n).toNat] d

/-- Day-of-month overflow normalisation performed by `Date` after
`setMonth`/`setFullYear`: a kept day-of-month larger than the target
month's length rolls into the following month.  (For day ≤ 31 a single
roll suffices, exactly as in `Date`.) -/
def fixDay (y : Int) (m d ms : Nat) : DT :=
  if d ≤ daysInMonth y m then ⟨y, m, d, ms⟩
  else if m = 12 then ⟨y + 1, 1, d - 31, ms⟩
  else ⟨y, m + 1, d - daysInMonth y m, ms⟩

/-- `setUTCMonth(getUTCMonth() + k)` / `setMonth(getMonth() + k)`:
calendar-month shift with `Date`'s day-of-month rollover. -/
def addMonths (d : DT) (k : Int) : DT :=
  let total : Int := d.year * 12 + (d.month : Int) - 1 + k
  fixDay (total / 12) ((total % 12).toNat + 1) d.day d.ms

/-- `setUTCFullYear(getUTCFullYear() + k)`: year shift with `Date`'s
day-of-month rollover (Feb 29 of a leap year rolls to Mar 1). -/
def addYears (d : DT) (k : Int) : DT :=
  fixDay (d.year + k) d.month d.day d.ms

/-- The `Date.UTC(year, month0, day)` constructor semantics: the 0-based
month and the day are normalised by calendar arithmetic. -/
def dtOfUTC (y m0 dayArg : Int) : DT :=
  let total : Int := y * 12 + m0
  addDays ⟨total / 12, (total % 12).toNat + 1, 1, 0⟩ (dayArg - 1)

/-- Scheme increment used by `calculateBoundaries` (the `switch` on the
partition type; `PerMinute`, `PerHour`, `Daily` and every unknown type
take the `default` branch and add one day). -/
def advanceSeq (type : String) (d : DT) : DT :=
  if type = "Weekly" then addDays d 7
  else if type = "Monthly" then addMonths d 1
  else if type = "Yearly" then addYears d 1
  else if type = "BiWeekly" then addDays d 14
  else addDays d 1

/-- Scheme increment used by `changeBoundary` (the `switch` on the
partition type with a signed `delta`). -/
def advanceNav (type : String) (delta : Int) (d : DT) : DT :=
  if type = "Weekly" then addDays d (delta * 7)
  else if type = "Monthly" then addMonths d delta
  else if type = "Yearly" then addYears d delta
  else if type = "BiWeekly" then addDays d (delta * 14)
  else addDays d delta

/-- Time-granularity partition types (`isTimeBased` in the source). -/
def isTimeBased (type : String) : Bool :=
  type = "PerMinute" || type = "PerHour"

/-! ### Strings: formatting, comparison and parsing -/

/-- Decimal digit character. -/
def digitChar (n : Nat) : Char :=
  match n with
  | 0 => '0' | 1 => '1' | 2 => '2' | 3 => '3' | 4 => '4'
  | 5 => '5' | 6 => '6' | 7 => '7' | 8 => '8' | _ => '9'

/-- Fixed-width decimal rendering (most significant digit first), as used
by `toISOString` for each date/time field. -/
def padDigits : Nat → Nat → List Char
  | 0, _ => []
  | k + 1, n => digitChar (n / 10 ^ k) :: padDigits k (n % 10 ^ k)

/-- Time-of-day part of `toISOString` output, from milliseconds of day. -/
def timePartL (ms : Nat) : List Char :=
  'T' :: (padDigits 2 (ms / 3600000) ++
    ':' :: (padDigits 2 (ms % 3600000 / 60000) ++
      ':' :: (padDigits 2 (ms % 60000 / 1000) ++
        '.' :: (padDigits 3 (ms % 1000) ++ ['Z']))))

/-- Date part of `toISOString` output (`YYYY-MM-DD`), for years 0-9999. -/
def toISODateL (d : DT) : List Char :=
  padDigits 4 d.year.toNat ++ '-' :: (padDigits 2 d.month ++ '-' :: padDigits 2 d.day)

/-- `date.toISOString().split("T")[0]`. -/
def toISODate (d : DT) : String := ⟨toISODateL d⟩

/-- `date.toISOString()`. -/
def toISO (d : DT) : String := ⟨toISODateL d ++ timePartL d.ms⟩

/-- Code-unit lexicographic comparison of character lists: the semantics
of `<` on JavaScript strings (for strings of characters below U+10000,
which covers every boundary key). -/
def charListLt : List Char → List Char → Bool
  | [], [] => false
  | [], _ :: _ => true
  | _ :: _, [] => false
  | a :: as, b :: bs => if a < b then true else if b < a then false else charListLt as bs

/-- JavaScript `<` on strings. -/
def strLt (a b : String) : Bool := charListLt a.data b.data

/-- JavaScript `a < b ? a : b` on strings. -/
def strMin (a b : String) : String := if strLt a b then a else b

/-- Numeric value of a digit character. -/
def digitVal (c : Char) : Nat := c.toNat - 48

/-- Leading decimal digits of a character list, as a number (`none` when
there is no leading digit). -/
def parseDigs (cs : List Char) : Option Nat :=
  let ds := cs.takeWhile Char.isDigit
  if ds = [] then none else some (ds.foldl (fun a c => a * 10 + digitVal c) 0)

/-- JavaScript `parseInt(s, 10)` (`none` models `NaN`): skip leading
whitespace, optional sign, then leading digits. -/
def jsParseIntL (cs : List Char) : Option Int :=
  let cs' := cs.dropWhile fun c => c = ' ' || c = '\t' || c = '\n' || c = '\r'
  match cs' with
  | [] => none
  | c :: r =>
    if c = '-' then (parseDigs r).map fun n => -(n : Int)
    else if c = '+' then (parseDigs r).map fun n => (n : Int)
    else (parseDigs (c :: r)).map fun n => (n : Int)

/-- JavaScript `parseInt(s, 10)` on a string. -/
def jsParseInt (s : String) : Option Int := jsParseIntL s.data

/-- JavaScript `s.split("T")[0]`. -/
def datePart (s : String) : String := ⟨s.data.takeWhile (· ≠ 'T')⟩

/-- JavaScript `s.split("-")` (all fragments). -/
def splitDash : List Char → List (List Char)
  | [] => [[]]
  | c :: r =>
    if c = '-' then [] :: splitDash r
    else
      match splitDash r with
      | [] => [[c]]
      | p :: ps => (c :: p) :: ps

/-- The date parse performed by `changeBoundary`: split the current key
on `-`, `parseInt` the three parts, build `new Date(Date.UTC(y, m-1, d))`.
`none` models the `NaN`/Invalid-Date path (whose `toISOString()` would
throw; it is unreachable for canonical boundary keys). -/
def navParseDate (s : String) : Option DT :=
  match splitDash s.data with
  | [a, b, c] =>
    match jsParseIntL a, jsParseIntL b, jsParseIntL c with
    | some y, some m, some d => some (dtOfUTC y (m - 1) d)
    | _, _, _ => none
  | _ => none

/-- `new Date(s)` for canonical ISO-8601 inputs: a `YYYY-MM-DD` date or a
`YYYY-MM-DDTHH:MM:SS.mmmZ` timestamp.  Non-canonical strings give `none`
(Invalid Date: every comparison with it is false). -/
def parseISOL : List Char → Option DT
  | [y1, y2, y3, y4, '-', m1, m2, '-', d1, d2] =>
    if y1.isDigit ∧ y2.isDigit ∧ y3.isDigit ∧ y4.isDigit ∧ m1.isDigit ∧ m2.isDigit ∧
        d1.isDigit ∧ d2.isDigit then
      let y : Nat := ((digitVal y1 * 10 + digitVal y2) * 10 + digitVal y3) * 10 + digitVal y4
      let m : Nat := digitVal m1 * 10 + digitVal m2
      let dy : Nat := digitVal d1 * 10 + digitVal d2
      if 1 ≤ m ∧ m ≤ 12 ∧ 1 ≤ dy ∧ dy ≤ daysInMonth (y : Int) m then
        some ⟨(y : Int), m, dy, 0⟩
      else none
    else none
  | [y1, y2, y3, y4, '-', m1, m2, '-', d1, d2, 'T', h1, h2, ':', n1, n2, ':',
      s1, s2, '.', f1, f2, f3, 'Z'] =>
    if y1.isDigit ∧ y2.isDigit ∧ y3.isDigit ∧ y4.isDigit ∧ m1.isDigit ∧ m2.isDigit ∧
        d1.isDigit ∧ d2.isDigit ∧ h1.isDigit ∧ h2.isDigit ∧ n1.isDigit ∧ n2.isDigit ∧
        s1.isDigit ∧ s2.isDigit ∧ f1.isDigit ∧ f2.isDigit ∧ f3.isDigit then
      let y : Nat := ((digitVal y1 * 10 + digitVal y2) * 10 + digitVal y3) * 10 + digitVal y4
      let m : Nat := digitVal m1 * 10 + digitVal m2
      let dy : Nat := digitVal d1 * 10 + digitVal d2
      let hh : Nat := digitVal h1 * 10 + digitVal h2
      let mi : Nat := digitVal n1 * 10 + digitVal n2
      let ss : Nat := digitVal s1 * 10 + digitVal s2
      let ff : Nat := (digitVal f1 * 10 + digitVal f2) * 10 + digitVal f3
      if 1 ≤ m ∧ m ≤ 12 ∧ 1 ≤ dy ∧ dy ≤ daysInMonth (y : Int) m ∧ hh < 24 ∧ mi < 60 ∧
          ss < 60 then
        some ⟨(y : Int), m, dy, (hh * 3600000 + mi * 60000 + ss * 1000 + ff)⟩
      else none
    else none
  | _ => none

/-- `new Date(s)` on a string. -/
def parseISO (s : String) : Option DT := parseISOL s.data

/-! ### Engine data model and operations -/

/-- Goal record as delivered by the API (fields used by the engine). -/
structure Goal where
  id : String
  name : String
  type : String
  group_name : String
  partition_type : String
  partition_label : Option String
  start_date : String
  end_date : String
deriving DecidableEq, Repr

/-- A boundary value in the `PartitionContext`: `string | number`. -/
inductive BVal where
  | s (v : String)
  | n (v : Int)
deriving DecidableEq, Repr

/-- The resolved partition context (`PartitionContext` interface). -/
structure PartitionContext where
  type : String
  label : String
  start : BVal
  endB : Option BVal
  isCounter : Bool
  groupName : String
deriving DecidableEq, Repr

/-- JavaScript `Number(v)` restricted to the values this engine produces:
counter boundaries and bounds are numbers (strings reaching a `Number`
coercion here would be `NaN`, modelled as `none`). -/
def numOf : BVal → Option Int
  | .n k => some k
  | .s _ => none

/-- The literal `new Date("2099-12-31T23:59:59.000Z")` fallback. -/
def timeSentinel : DT := ⟨2099, 12, 31, 86399000⟩

/-- The `partitionContext` resolver (`useMemo` over `goals`): derives the
scheme, label and bounded range from the first goal, with `now` the
ambient clock reading. -/
def partitionContext (goals : List Goal) (now : DT) : PartitionContext :=
  let today := toISODate now
  match goals with
  | [] => ⟨"Daily", "Daily Entry", .s today, some (.s "2099-12-31"), false, "Default"⟩
  | g :: _ =>
    let isCounter := g.partition_type = "CustomCounter"
    let res : BVal × Option BVal :=
      if isCounter then
        (.n (match (if g.start_date ≠ "" then jsParseInt g.start_date else some 0) with
              | some v => v
              | none => 0),
         if g.end_date ≠ "" then
           match jsParseInt g.end_date with
           | some v => some (.n v)
           | none => none
         else none)
      else if isTimeBased g.partition_type then
        let endDT : DT :=
          match (if g.end_date ≠ "" then parseISO g.end_date else some timeSentinel) with
          | some e => if e.toMs < now.toMs then e else now
          | none => now
        (.s (if g.start_date ≠ "" then g.start_date else toISO now),
         some (.s (toISO endDT)))
      else
        let cfgEnd := if g.end_date ≠ "" then datePart g.end_date else "2099-12-31"
        (.s (if g.start_date ≠ "" then datePart g.start_date else today),
         some (.s (strMin cfgEnd today)))
    ⟨g.partition_type,
     (match g.partition_label with
      | some l => if l ≠ "" then l else g.partition_type
      | none => g.partition_type),
     res.1, res.2, isCounter, g.group_name⟩

/-- The `isBoundaryValid` check: a boundary is valid when it lies inside
`[start, end]` of the resolved context (numeric comparison for counters,
string comparison for calendar keys; a `null` boundary is invalid; a
missing end imposes no upper bound). -/
def isBoundaryValid (ctx : PartitionContext) (current : Option BVal) : Bool :=
  match current with
  | none => false
  | some cb =>
    if ctx.isCounter then
      let ltStart := match numOf cb, numOf ctx.start with
        | some c', some s' => decide (c' < s')
        | _, _ => false
      if ltStart then false
      else
        match ctx.endB with
        | none => true
        | some e =>
          let gtEnd := match numOf cb, numOf e with
            | some c', some e' => decide (e' < c')
            | _, _ => false
          !gtEnd
    else
      match cb with
      | .n _ => true
      | .s cs =>
        match ctx.start with
        | .n _ => true
        | .s ss =>
          if strLt cs ss then false
          else
            match ctx.endB with
            | none => true
            | some (.n _) => true
            | some (.s es) => !(strLt es cs)

/-- Boundary key formatting in the sequencer (`getFormattedBoundary`):
time-granularity schemes use the full ISO timestamp, the rest the date
part. -/
def getFormattedBoundary (type : String) (d : DT) : String :=
  if isTimeBased type then toISO d else toISODate d

/-- The `while` loop of `calculateBoundaries`, with explicit fuel: emit
the formatted cursor while it is `<= end` and `<= now`, step it by the
scheme increment, and stop (keeping the partial output) if an increment
fails to advance the cursor. -/
def calcCalendarAux (type : String) (endD now : DT) : Nat → DT → List String
  | 0, _ => []
  | fuel + 1, current =>
    if current.toMs ≤ endD.toMs ∧ current.toMs ≤ now.toMs then
      let key := getFormattedBoundary type current
      let next := advanceSeq type current
      if next.toMs = current.toMs then [key]
      else key :: calcCalendarAux type endD now fuel next
    else []

/-- `calculateBoundaries(context)`: empty for counter contexts (and for a
non-string start); otherwise parse `start`/`end` and run the loop.
`new Date(null)` is the epoch; an Invalid Date makes every loop
comparison false, so the loop yields `[]`. -/
def calculateBoundaries (ctx : PartitionContext) (now : DT) (fuel : Nat) : List String :=
  if ctx.isCounter then []
  else match ctx.start with
  | .n _ => []
  | .s s =>
    let sd? := parseISO s
    let ed? : Option DT := match ctx.endB with
      | some (.s e) => parseISO e
      | none => some ⟨1970, 1, 1, 0⟩
      | some (.n _) => none
    match sd?, ed? with
    | some sd, some ed => calcCalendarAux ctx.type ed now fuel sd
    | _, _ => []

/-- `changeBoundary(delta)`: counter boundaries step numerically and are
refused outside `[start, end]`; calendar boundaries re-parse the key's
date part, apply the scheme increment `delta` times via UTC arithmetic,
clamp below `start` to exactly `start`, refuse above `end`. -/
def changeBoundary (ctx : PartitionContext) (current : BVal) (delta : Int) : BVal :=
  if ctx.isCounter then
    match numOf current, numOf ctx.start with
    | some c, some s =>
      let nb := c + delta
      let okHigh : Bool := match ctx.endB with
        | none => true
        | some e => match numOf e with
          | some e' => decide (nb ≤ e')
          | none => false
      if s ≤ nb ∧ okHigh = true then .n nb else current
    | _, _ => current
  else
    match current with
    | .n _ => current
    | .s cs =>
      match navParseDate cs with
      | none => current
      | some d0 =>
        let nd := advanceNav ctx.type delta d0
        let ns := if isTimeBased ctx.type then toISO nd else toISODate nd
        let startStr := match ctx.start with | .s t => t | .n _ => ""
        let endStr := match ctx.endB with | some (.s e) => e | _ => ""
        if strLt ns startStr then
          (if cs ≠ startStr then .s startStr else current)
        else if !(strLt endStr ns) then .s ns
        else current

/-- Claim-side increment for C2: the claim's per-scheme increments with
the amendment that `PerMinute` and `PerHour` advance by one day (they
take the `default` branch of the source's `switch`). -/
def specAdvance (type : String) (d : DT) : DT :=
  if type = "PerMinute" then addDays d 1
  else if type = "PerHour" then addDays d 1
  else if type = "Daily" then addDays d 1
  else if type = "Weekly" then addDays d 7
  else if type = "BiWeekly" then addDays d 14
  else if type = "Monthly" then addMonths d 1
  else d

/-- Claim-side sequence for C2: starting at the cursor, emit and
repeatedly add the scheme-specific increment while the boundary is
`<= end` and `<= now` (fuelled like the loop it is compared with). -/
def specSeq (type : String) (endD now : DT) : Nat → DT → List String
  | 0, _ => []
  | fuel + 1, t =>
    if t.toMs ≤ endD.toMs ∧ t.toMs ≤ now.toMs then
      getFormattedBoundary type t :: specSeq type endD now fuel (specAdvance type t)
    else []

/-! ### Calendar arithmetic lemmas -/

theorem dim_eval1 (y : Int) : daysInMonth y 1 = 31 := rfl
theorem dim_eval2 (y : Int) : daysInMonth y 2 = if isLeap y then 29 else 28 := rfl
theorem dim_eval3 (y : Int) : daysInMonth y 3 = 31 := rfl
theorem dim_eval4 (y : Int) : daysInMonth y 4 = 30 := rfl
theorem dim_eval5 (y : Int) : daysInMonth y 5 = 31 := rfl
theorem dim_eval6 (y : Int) : daysInMonth y 6 = 30 := rfl
theorem dim_eval7 (y : Int) : daysInMonth y 7 = 31 := rfl
theorem dim_eval8 (y : Int) : daysInMonth y 8 = 31 := rfl
theorem dim_eval9 (y : Int) : daysInMonth y 9 = 30 := rfl
theorem dim_eval10 (y : Int) : daysInMonth y 10 = 31 := rfl
theorem dim_eval11 (y : Int) : daysInMonth y 11 = 30 := rfl
theorem dim_eval12 (y : Int) : daysInMonth y 12 = 31 := rfl

theorem dbm_eval0 (y : Int) : daysBeforeMonth y 0 = 0 := rfl
theorem dbm_eval1 (y : Int) : daysBeforeMonth y 1 = 0 := rfl
theorem dbm_eval2 (y : Int) : daysBeforeMonth y 2 = 31 := rfl
theorem dbm_eval3 (y : Int) :
    daysBeforeMonth y 3 = 59 + (if isLeap y then 1 else 0) := rfl
theorem dbm_eval4 (y : Int) :
    daysBeforeMonth y 4 = 90 + (if isLeap y then 1 else 0) := rfl
theorem dbm_eval5 (y : Int) :
    daysBeforeMonth y 5 = 120 + (if isLeap y then 1 else 0) := rfl
theorem dbm_eval6 (y : Int) :
    daysBeforeMonth y 6 = 151 + (if isLeap y then 1 else 0) := rfl
theorem dbm_eval7 (y : Int) :
    daysBeforeMonth y 7 = 181 + (if isLeap y then 1 else 0) := rfl
theorem dbm_eval8 (y : Int) :
    daysBeforeMonth y 8 = 212 + (if isLeap y then 1 else 0) := rfl
theorem dbm_eval9 (y : Int) :
    daysBeforeMonth y 9 = 243 + (if isLeap y then 1 else 0) := rfl
theorem dbm_eval10 (y : Int) :
    daysBeforeMonth y 10 = 273 + (if isLeap y then 1 else 0) := rfl
theorem dbm_eval11 (y : Int) :
    daysBeforeMonth y 11 = 304 + (if isLeap y then 1 else 0) := rfl
theorem dbm_eval12 (y : Int) :
    daysBeforeMonth y 12 = 334 + (if isLeap y then 1 else 0) := rfl
theorem dbm_eval13 (y : Int) :
    daysBeforeMonth y 13 = 365 + (if isLeap y then 1 else 0) := rfl

theorem daysInMonth_le31 (y : Int) (m : Nat) : daysInMonth y m ≤ 31 := by
  unfold daysInMonth; split <;> first | omega | (split <;> omega)

theorem daysInMonth_ge28 (y : Int) (m : Nat) : 28 ≤ daysInMonth y m := by
  unfold daysInMonth; split <;> first | omega | (split <;> omega)

theorem daysBeforeMonth_succ (y : Int) (m : Nat) (h1 : 1 ≤ m) (h2 : m ≤ 12) :
    daysBeforeMonth y (m + 1) = daysBeforeMonth y m + daysInMonth y m := by
  interval_cases m <;>
    norm_num [dim_eval1, dim_eval2, dim_eval3, dim_eval4, dim_eval5, dim_eval6,
      dim_eval7, dim_eval8, dim_eval9, dim_eval10, dim_eval11, dim_eval12,
      dbm_eval1, dbm_eval2, dbm_eval3, dbm_eval4, dbm_eval5, dbm_eval6, dbm_eval7,
      dbm_eval8, dbm_eval9, dbm_eval10, dbm_eval11, dbm_eval12, dbm_eval13] <;>
    cases h : isLeap y <;> simp [h]

theorem daysBeforeMonth_mono (y : Int) (m m' : Nat) (h1 : m ≤ m') (h2 : m' ≤ 13) :
    daysBeforeMonth y m ≤ daysBeforeMonth y m' := by
  induction m' with
  | zero => interval_cases m; omega
  | succ k ih =>
    rcases Nat.lt_or_ge m (k + 1) with hlt | hge
    · rcases Nat.eq_zero_or_pos k with rfl | hk
      · interval_cases m <;> simp [dbm_eval0, dbm_eval1]
      · calc daysBeforeMonth y m ≤ daysBeforeMonth y k := ih (by omega) (by omega)
          _ ≤ daysBeforeMonth y (k + 1) := by
              rw [daysBeforeMonth_succ y k hk (by omega)]; omega
    · have hm : m = k + 1 := by omega
      subst hm
      exact le_refl _

theorem dayNumOfYear_succ (y : Int) :
    dayNumOfYear (y + 1) = dayNumOfYear y + 365 + ((if isLeap y then 1 else 0 : Nat) : Int) := by
  unfold dayNumOfYear leapsBefore isLeap
  split <;> rename_i h <;> simp only [decide_eq_true_eq] at h <;> omega

theorem dayNum_mk (y : Int) (m day ms : Nat) :
    dayNum ⟨y, m, day, ms⟩ = dayNumOfYear y + daysBeforeMonth y m + day - 1 := rfl

theorem WF_mk (y : Int) (m day ms : Nat) :
    DT.WF ⟨y, m, day, ms⟩ ↔
      1 ≤ m ∧ m ≤ 12 ∧ 1 ≤ day ∧ day ≤ daysInMonth y m ∧ ms < msPerDay := Iff.rfl

theorem ms_mk (y : Int) (m day ms : Nat) : DT.ms ⟨y, m, day, ms⟩ = ms := rfl

theorem year_mk (y : Int) (m day ms : Nat) : DT.year ⟨y, m, day, ms⟩ = y := rfl

theorem month_mk (y : Int) (m day ms : Nat) : DT.month ⟨y, m, day, ms⟩ = m := rfl

theorem day_mk (y : Int) (m day ms : Nat) : DT.day ⟨y, m, day, ms⟩ = day := rfl

theorem toMs_mk (y : Int) (m day ms : Nat) :
    DT.toMs ⟨y, m, day, ms⟩ = dayNum ⟨y, m, day, ms⟩ * msPerDay + ms := rfl

theorem dayNumOfYear_mono (y y' : Int) (h : y ≤ y') :
    dayNumOfYear y ≤ dayNumOfYear y' := by
  refine Int.le_induction (P := fun n => dayNumOfYear y ≤ dayNumOfYear n) (le_refl _) ?_ y' h
  intro n hn ih
  rw [dayNumOfYear_succ n]
  omega

theorem dayNumOfYear_add_le (y y' : Int) (h : y + 1 ≤ y') :
    dayNumOfYear y + 365 ≤ dayNumOfYear y' := by
  have h1 : dayNumOfYear (y + 1) ≤ dayNumOfYear y' := dayNumOfYear_mono _ _ h
  rw [dayNumOfYear_succ y] at h1
  omega

theorem succDay_spec (d : DT) (h : d.WF) :
    dayNum (succDay d) = dayNum d + 1 ∧ (succDay d).WF ∧ (succDay d).ms = d.ms := by
  obtain ⟨h1, h2, h3, h4, h5⟩ := h
  unfold succDay
  split
  · rename_i hlt
    refine ⟨?_, ?_, rfl⟩
    · unfold dayNum
      simp only [year_mk, month_mk, day_mk]
      omega
    · unfold DT.WF
      simp only [year_mk, month_mk, day_mk, ms_mk]
      exact ⟨h1, h2, by omega, by omega, h5⟩
  · split
    · rename_i hge hm
      have hday : d.day = daysInMonth d.year d.month := by omega
      have hsucc := daysBeforeMonth_succ d.year d.month h1 h2
      refine ⟨?_, ?_, rfl⟩
      · unfold dayNum
        simp only [year_mk, month_mk, day_mk]
        omega
      · unfold DT.WF
        simp only [year_mk, month_mk, day_mk, ms_mk]
        exact ⟨by omega, by omega, le_refl _,
          le_trans (by omega) (daysInMonth_ge28 d.year (d.month + 1)), h5⟩
    · rename_i hge hm
      have hm12 : d.month = 12 := by omega
      have hday : d.day = 31 := by
        rw [hm12, dim_eval12] at h4
        rw [hm12, dim_eval12] at hge
        omega
      refine ⟨?_, ?_, rfl⟩
      · unfold dayNum
        simp only [year_mk, month_mk, day_mk]
        rw [dayNumOfYear_succ d.year, hm12, dbm_eval12, dbm_eval1]
        omega
      · unfold DT.WF
        simp only [year_mk, month_mk, day_mk, ms_mk]
        exact ⟨by omega, by omega, le_refl _,
          le_trans (by omega) (daysInMonth_ge28 (d.year + 1) 1), h5⟩

theorem succDay_iter_spec (d : DT) (h : d.WF) (k : Nat) :
    dayNum (succDay^[k] d) = dayNum d + k ∧ (succDay^[k] d).WF ∧
      (succDay^[k] d).ms = d.ms := by
  induction k with
  | zero => exact ⟨by simp, by simpa using h, by simp⟩
  | succ n ih =>
    obtain ⟨e1, e2, e3⟩ := ih
    obtain ⟨s1, s2, s3⟩ := succDay_spec _ e2
    rw [Function.iterate_succ_apply']
    exact ⟨by rw [s1, e1]; push_cast; ring, s2, by rw [s3, e3]⟩

theorem addDays_spec (d : DT) (h : d.WF) (n : Int) (hn : 0 ≤ n) :
    dayNum (addDays d n) = dayNum d + n ∧ (addDays d n).WF ∧ (addDays d n).ms = d.ms := by
  unfold addDays
  rw [if_pos hn]
  obtain ⟨e1, e2, e3⟩ := succDay_iter_spec d h n.toNat
  exact ⟨by rw [e1]; omega, e2, e3⟩

theorem dbm_year_close (y : Int) (m : Nat) (hm : m ≤ 13) :
    daysBeforeMonth y m ≤ daysBeforeMonth (y + 1) m + 1 ∧
      daysBeforeMonth (y + 1) m ≤ daysBeforeMonth y m + 1 := by
  interval_cases m <;>
    simp only [dbm_eval0, dbm_eval1, dbm_eval2, dbm_eval3, dbm_eval4, dbm_eval5,
      dbm_eval6, dbm_eval7, dbm_eval8, dbm_eval9, dbm_eval10, dbm_eval11,
      dbm_eval12, dbm_eval13] <;>
    cases hA : isLeap y <;> cases hB : isLeap (y + 1) <;> simp [hA, hB]

theorem addMonths_one_spec (d : DT) (h : d.WF) :
    dayNum d + 1 ≤ dayNum (addMonths d 1) ∧ (addMonths d 1).WF ∧
      (addMonths d 1).ms = d.ms := by
  obtain ⟨h1, h2, h3, h4, h5⟩ := h
  have hle31 := daysInMonth_le31 d.year d.month
  rcases Nat.lt_or_ge d.month 12 with hm | hm
  · have he : addMonths d 1 = fixDay d.year (d.month + 1) d.day d.ms := by
      simp only [addMonths]
      congr 1
      · omega
      · omega
    rw [he]
    unfold fixDay
    have hsucc := daysBeforeMonth_succ d.year d.month h1 (by omega)
    split
    · rename_i hfit
      refine ⟨?_, ?_, rfl⟩
      · unfold dayNum
        simp only [year_mk, month_mk, day_mk]
        have := daysInMonth_ge28 d.year d.month
        omega
      · unfold DT.WF
        simp only [year_mk, month_mk, day_mk, ms_mk]
        exact ⟨by omega, by omega, h3, hfit, h5⟩
    · rename_i hover
      split
      · rename_i h12
        have hx : daysInMonth d.year (d.month + 1) = 31 := by rw [h12]; exact dim_eval12 _
        omega
      · rename_i h12
        have hm11 : d.month + 1 ≤ 11 := by omega
        have hsucc2 := daysBeforeMonth_succ d.year (d.month + 1) (by omega) (by omega)
        have hge1 := daysInMonth_ge28 d.year d.month
        have hge2 := daysInMonth_ge28 d.year (d.month + 1)
        have hge3 := daysInMonth_ge28 d.year (d.month + 1 + 1)
        refine ⟨?_, ?_, rfl⟩
        · unfold dayNum
          simp only [year_mk, month_mk, day_mk]
          omega
        · unfold DT.WF
          simp only [year_mk, month_mk, day_mk, ms_mk]
          exact ⟨by omega, by omega, by omega, by omega, h5⟩
  · have hm12 : d.month = 12 := by omega
    have he : addMonths d 1 = fixDay (d.year + 1) 1 d.day d.ms := by
      simp only [addMonths, hm12]
      congr 1
      · omega
      · omega
    rw [he]
    unfold fixDay
    rw [dim_eval1, if_pos (by omega : d.day ≤ 31)]
    refine ⟨?_, ?_, rfl⟩
    · unfold dayNum
      simp only [year_mk, month_mk, day_mk]
      rw [dayNumOfYear_succ d.year, hm12, dbm_eval12, dbm_eval1]
      omega
    · unfold DT.WF
      simp only [year_mk, month_mk, day_mk, ms_mk]
      exact ⟨by omega, by omega, h3, by rw [dim_eval1]; omega, h5⟩

theorem addYears_one_spec (d : DT) (h : d.WF) :
    dayNum d + 1 ≤ dayNum (addYears d 1) ∧ (addYears d 1).WF ∧
      (addYears d 1).ms = d.ms := by
  obtain ⟨h1, h2, h3, h4, h5⟩ := h
  have hle31 := daysInMonth_le31 d.year d.month
  have hclose := dbm_year_close d.year d.month (by omega)
  have hyr := dayNumOfYear_succ d.year
  unfold addYears fixDay
  split
  · rename_i hfit
    refine ⟨?_, ?_, rfl⟩
    · unfold dayNum
      simp only [year_mk, month_mk, day_mk]
      omega
    · unfold DT.WF
      simp only [year_mk, month_mk, day_mk, ms_mk]
      exact ⟨h1, h2, h3, hfit, h5⟩
  · rename_i hover
    split
    · rename_i h12
      have hx : daysInMonth (d.year + 1) d.month = 31 := by rw [h12]; exact dim_eval12 _
      omega
    · rename_i h12
      have hm11 : d.month ≤ 11 := by omega
      have hsucc2 := daysBeforeMonth_succ (d.year + 1) d.month h1 (by omega)
      have hge1 := daysInMonth_ge28 (d.year + 1) d.month
      have hge2 := daysInMonth_ge28 (d.year + 1) (d.month + 1)
      refine ⟨?_, ?_, rfl⟩
      · unfold dayNum
        simp only [year_mk, month_mk, day_mk]
        omega
      · unfold DT.WF
        simp only [year_mk, month_mk, day_mk, ms_mk]
        exact ⟨by omega, by omega, by omega, by omega, h5⟩

theorem advanceSeq_spec (type : String) (d : DT) (h : d.WF) :
    dayNum d + 1 ≤ dayNum (advanceSeq type d) ∧ (advanceSeq type d).WF ∧
      (advanceSeq type d).ms = d.ms := by
  unfold advanceSeq
  split_ifs
  · obtain ⟨e1, e2, e3⟩ := addDays_spec d h 7 (by omega)
    exact ⟨by omega, e2, e3⟩
  · exact addMonths_one_spec d h
  · exact addYears_one_spec d h
  · obtain ⟨e1, e2, e3⟩ := addDays_spec d h 14 (by omega)
    exact ⟨by omega, e2, e3⟩
  · obtain ⟨e1, e2, e3⟩ := addDays_spec d h 1 (by omega)
    exact ⟨by omega, e2, e3⟩

theorem advanceSeq_toMs (type : String) (d : DT) (h : d.WF) :
    d.toMs + msPerDay ≤ (advanceSeq type d).toMs ∧ (advanceSeq type d).WF := by
  obtain ⟨e1, e2, e3⟩ := advanceSeq_spec type d h
  refine ⟨?_, e2⟩
  unfold DT.toMs
  rw [e3]
  unfold msPerDay at *
  omega

theorem dayNum_lb (d : DT) (h : d.WF) : dayNumOfYear d.year ≤ dayNum d := by
  obtain ⟨h1, h2, h3, h4, h5⟩ := h
  unfold dayNum
  omega

theorem dayNum_ub (d : DT) (h : d.WF) : dayNum d < dayNumOfYear (d.year + 1) := by
  obtain ⟨h1, h2, h3, h4, h5⟩ := h
  have hs := daysBeforeMonth_succ d.year d.month h1 h2
  have hm := daysBeforeMonth_mono d.year (d.month + 1) 13 (by omega) (le_refl _)
  have he := dbm_eval13 d.year
  have hy := dayNumOfYear_succ d.year
  unfold dayNum
  omega

theorem year_le_of_dayNum_le (a b : DT) (ha : a.WF) (hb : b.WF)
    (h : dayNum a ≤ dayNum b) : a.year ≤ b.year := by
  by_contra hc
  push_neg at hc
  have h1 := dayNum_ub b hb
  have h2 := dayNum_lb a ha
  have h3 := dayNumOfYear_mono (b.year + 1) a.year (by omega)
  omega

theorem dayNum_le_of_toMs_le (a b : DT) (ha : a.ms < msPerDay) (hb : b.ms < msPerDay)
    (h : a.toMs ≤ b.toMs) : dayNum a ≤ dayNum b := by
  unfold DT.toMs at h
  unfold msPerDay at *
  omega

theorem toMs_lt_of_dayNum_lt (a b : DT) (ha : a.ms < msPerDay) (hb : b.ms < msPerDay)
    (h : dayNum a < dayNum b) : a.toMs < b.toMs := by
  unfold DT.toMs
  unfold msPerDay at *
  omega

theorem calcCalendarAux_stable (type : String) (endD now : DT) (k : Nat) :
    ∀ (sd : DT) (f g : Nat), sd.WF →
      endD.toMs < sd.toMs + k * msPerDay → k < f → k < g →
      calcCalendarAux type endD now f sd = calcCalendarAux type endD now g sd := by
  induction k with
  | zero =>
    intro sd f g hwf hlt hf hg
    obtain ⟨f', rfl⟩ : ∃ f', f = f' + 1 := ⟨f - 1, by omega⟩
    obtain ⟨g', rfl⟩ : ∃ g', g = g' + 1 := ⟨g - 1, by omega⟩
    unfold calcCalendarAux
    rw [if_neg (by omega), if_neg (by omega)]
  | succ n ih =>
    intro sd f g hwf hlt hf hg
    obtain ⟨f', rfl⟩ : ∃ f', f = f' + 1 := ⟨f - 1, by omega⟩
    obtain ⟨g', rfl⟩ : ∃ g', g = g' + 1 := ⟨g - 1, by omega⟩
    unfold calcCalendarAux
    by_cases hc : sd.toMs ≤ endD.toMs ∧ sd.toMs ≤ now.toMs
    · rw [if_pos hc, if_pos hc]
      obtain ⟨hstep, hwf'⟩ := advanceSeq_toMs type sd hwf
      simp only [msPerDay] at hstep hlt
      rw [if_neg (by omega), if_neg (by omega)]
      have hrec := ih (advanceSeq type sd) f' g' hwf'
        (by simp only [msPerDay]; omega) (by omega) (by omega)
      rw [hrec]
    · rw [if_neg hc, if_neg hc]

theorem calcCalendarAux_head (type : String) (endD now : DT) (f : Nat) (sd : DT) :
    calcCalendarAux type endD now f sd = [] ∨
      (sd.toMs ≤ endD.toMs ∧ sd.toMs ≤ now.toMs ∧
        ∃ rest, calcCalendarAux type endD now f sd =
          getFormattedBoundary type sd :: rest) := by
  cases f with
  | zero => exact Or.inl rfl
  | succ f' =>
    unfold calcCalendarAux
    by_cases hc : sd.toMs ≤ endD.toMs ∧ sd.toMs ≤ now.toMs
    · rw [if_pos hc]
      by_cases hg : (advanceSeq type sd).toMs = sd.toMs
      · rw [if_pos hg]
        exact Or.inr ⟨hc.1, hc.2, [], rfl⟩
      · rw [if_neg hg]
        exact Or.inr ⟨hc.1, hc.2, _, rfl⟩
    · rw [if_neg hc]
      exact Or.inl rfl

/-! ### String comparison lemmas -/

theorem digitChar_lt_iff (a b : Nat) (ha : a < 10) (hb : b < 10) :
    digitChar a < digitChar b ↔ a < b := by
  interval_cases a <;> interval_cases b <;> decide

theorem digitChar_inj (a b : Nat) (ha : a < 10) (hb : b < 10) :
    digitChar a = digitChar b ↔ a = b := by
  interval_cases a <;> interval_cases b <;> decide

theorem charListLt_cons (a b : Char) (as bs : List Char) :
    charListLt (a :: as) (b :: bs) =
      if a < b then true else if b < a then false else charListLt as bs := rfl

theorem charListLt_cons_self (c : Char) (A B : List Char) :
    charListLt (c :: A) (c :: B) = charListLt A B := by
  rw [charListLt_cons, if_neg (lt_irrefl c), if_neg (lt_irrefl c)]

theorem charListLt_irrefl (A : List Char) : charListLt A A = false := by
  induction A with
  | nil => rfl
  | cons a as ih => rw [charListLt_cons_self]; exact ih

theorem charListLt_trans (A : List Char) : ∀ B C : List Char,
    charListLt A B = true → charListLt B C = true → charListLt A C = true := by
  induction A with
  | nil =>
    intro B C h1 h2
    cases B with
    | nil => exact absurd h1 (by simp [charListLt])
    | cons b bs =>
      cases C with
      | nil => exact absurd h2 (by simp [charListLt])
      | cons c cs => rfl
  | cons a as ih =>
    intro B C h1 h2
    cases B with
    | nil => exact absurd h1 (by simp [charListLt])
    | cons b bs =>
      cases C with
      | nil => exact absurd h2 (by simp [charListLt])
      | cons c cs =>
        rw [charListLt_cons] at h1 h2 ⊢
        rcases lt_trichotomy a b with hab | hab | hab
        · rcases lt_trichotomy b c with hbc | hbc | hbc
          · rw [if_pos (lt_trans hab hbc)]
          · subst hbc; rw [if_pos hab]
          · rw [if_neg (lt_asymm hbc), if_pos hbc] at h2
            exact absurd h2 (by simp)
        · subst hab
          rw [if_neg (lt_irrefl a), if_neg (lt_irrefl a)] at h1
          rcases lt_trichotomy a c with hac | hac | hac
          · rw [if_pos hac]
          · subst hac
            rw [if_neg (lt_irrefl a), if_neg (lt_irrefl a)] at h2 ⊢
            exact ih bs cs h1 h2
          · rw [if_neg (lt_asymm hac), if_pos hac] at h2
            exact absurd h2 (by simp)
        · rw [if_neg (lt_asymm hab), if_pos hab] at h1
          exact absurd h1 (by simp)

theorem charListLt_append_same (P A B : List Char) :
    charListLt (P ++ A) (P ++ B) = charListLt A B := by
  induction P with
  | nil => rfl
  | cons p ps ih => simpa only [List.cons_append, charListLt_cons_self] using ih

theorem charListLt_append_lt (P : List Char) : ∀ Q A B : List Char,
    P.length = Q.length → charListLt P Q = true →
    charListLt (P ++ A) (Q ++ B) = true := by
  induction P with
  | nil =>
    intro Q A B hlen h
    cases Q with
    | nil => exact absurd h (by simp [charListLt])
    | cons q qs => simp at hlen
  | cons p ps ih =>
    intro Q A B hlen h
    cases Q with
    | nil => simp at hlen
    | cons q qs =>
      simp only [List.length_cons, Nat.add_right_cancel_iff] at hlen
      simp only [List.cons_append, charListLt_cons] at h ⊢
      rcases lt_trichotomy p q with hpq | hpq | hpq
      · rw [if_pos hpq]
      · subst hpq
        rw [if_neg (lt_irrefl p), if_neg (lt_irrefl p)] at h ⊢
        exact ih qs A B hlen h
      · rw [if_neg (lt_asymm hpq), if_pos hpq] at h
        exact absurd h (by simp)

theorem charListLt_append_flip (P : List Char) : ∀ Q A B : List Char,
    P.length = Q.length → charListLt P Q = true →
    charListLt (Q ++ B) (P ++ A) = false := by
  induction P with
  | nil =>
    intro Q A B hlen h
    cases Q with
    | nil => exact absurd h (by simp [charListLt])
    | cons q qs => simp at hlen
  | cons p ps ih =>
    intro Q A B hlen h
    cases Q with
    | nil => simp at hlen
    | cons q qs =>
      simp only [List.length_cons, Nat.add_right_cancel_iff] at hlen
      simp only [List.cons_append, charListLt_cons] at h ⊢
      rcases lt_trichotomy p q with hpq | hpq | hpq
      · rw [if_neg (lt_asymm hpq), if_pos hpq]
      · subst hpq
        rw [if_neg (lt_irrefl p), if_neg (lt_irrefl p)] at h ⊢
        exact ih qs A B hlen h
      · rw [if_neg (lt_asymm hpq), if_pos hpq] at h
        exact absurd h (by simp)

theorem padDigits_length (k n : Nat) : (padDigits k n).length = k := by
  induction k generalizing n with
  | zero => rfl
  | succ k ih => simp only [padDigits, List.length_cons, ih]

theorem padDigits_lt (k : Nat) : ∀ n m : Nat, n < 10 ^ k → m < 10 ^ k → n < m →
    charListLt (padDigits k n) (padDigits k m) = true := by
  induction k with
  | zero =>
    intro n m hn hm h
    simp only [pow_zero, Nat.lt_one_iff] at hn hm
    omega
  | succ k ih =>
    intro n m hn hm h
    have hpow : 0 < 10 ^ k := Nat.pos_pow_of_pos k (by omega)
    have hdn : n / 10 ^ k < 10 := by
      rw [Nat.div_lt_iff_lt_mul hpow]
      calc n < 10 ^ (k + 1) := hn
        _ = 10 * 10 ^ k := by ring
        _ ≤ 10 * 10 ^ k := le_refl _
    have hdm : m / 10 ^ k < 10 := by
      rw [Nat.div_lt_iff_lt_mul hpow]
      calc m < 10 ^ (k + 1) := hm
        _ = 10 * 10 ^ k := by ring
        _ ≤ 10 * 10 ^ k := le_refl _
    have hdle : n / 10 ^ k ≤ m / 10 ^ k := Nat.div_le_div_right (by omega)
    simp only [padDigits, charListLt_cons]
    rcases Nat.lt_or_ge (n / 10 ^ k) (m / 10 ^ k) with hdlt | hdge
    · rw [if_pos ((digitChar_lt_iff _ _ hdn hdm).mpr hdlt)]
    · have hdeq : n / 10 ^ k = m / 10 ^ k := by omega
      rw [hdeq]
      rw [if_neg (lt_irrefl _), if_neg (lt_irrefl _)]
      have e1 : 10 ^ k * (n / 10 ^ k) + n % 10 ^ k = n := Nat.div_add_mod n (10 ^ k)
      have e2 : 10 ^ k * (m / 10 ^ k) + m % 10 ^ k = m := Nat.div_add_mod m (10 ^ k)
      rw [hdeq] at e1
      have hmods : n % 10 ^ k < m % 10 ^ k := by omega
      exact ih _ _ (Nat.mod_lt n hpow) (Nat.mod_lt m hpow) hmods

theorem dayNum_lt_of_fields (a b : DT) (ha : a.WF) (hb : b.WF)
    (h : a.year < b.year ∨ (a.year = b.year ∧ (a.month < b.month ∨
      (a.month = b.month ∧ a.day < b.day)))) :
    dayNum a < dayNum b := by
  obtain ⟨a1, a2, a3, a4, a5⟩ := ha
  obtain ⟨b1, b2, b3, b4, b5⟩ := hb
  rcases h with hy | ⟨hy, hm | ⟨hm, hd⟩⟩
  · have h1 := dayNum_ub a ⟨a1, a2, a3, a4, a5⟩
    have h2 := dayNum_lb b ⟨b1, b2, b3, b4, b5⟩
    have h3 := dayNumOfYear_mono (a.year + 1) b.year (by omega)
    omega
  · have hs := daysBeforeMonth_succ a.year a.month a1 a2
    have hmono := daysBeforeMonth_mono a.year (a.month + 1) b.month (by omega) (by omega)
    unfold dayNum
    rw [hy] at hs hmono a4 ⊢
    omega
  · unfold dayNum
    rw [hy, hm]
    omega

theorem dayNum_eq_of_fields (a b : DT)
    (hy : a.year = b.year) (hm : a.month = b.month) (hd : a.day = b.day) :
    dayNum a = dayNum b := by
  unfold dayNum
  rw [hy, hm, hd]

theorem dayNum_fields_iff (a b : DT) (ha : a.WF) (hb : b.WF) :
    dayNum a < dayNum b ↔
      (a.year < b.year ∨ (a.year = b.year ∧ (a.month < b.month ∨
        (a.month = b.month ∧ a.day < b.day)))) := by
  constructor
  · intro h
    rcases lt_trichotomy a.year b.year with hy | hy | hy
    · exact Or.inl hy
    · rcases lt_trichotomy a.month b.month with hm | hm | hm
      · exact Or.inr ⟨hy, Or.inl hm⟩
      · rcases lt_trichotomy a.day b.day with hd | hd | hd
        · exact Or.inr ⟨hy, Or.inr ⟨hm, hd⟩⟩
        · have := dayNum_eq_of_fields a b hy hm hd
          omega
        · have := dayNum_lt_of_fields b a hb ha
            (Or.inr ⟨hy.symm, Or.inr ⟨hm.symm, hd⟩⟩)
          omega
      · have := dayNum_lt_of_fields b a hb ha (Or.inr ⟨hy.symm, Or.inl hm⟩)
        omega
    · have := dayNum_lt_of_fields b a hb ha (Or.inl hy)
      omega
  · exact dayNum_lt_of_fields a b ha hb

theorem data_mk (l : List Char) : (String.mk l).data = l := rfl

theorem charListLt_asymm (A : List Char) : ∀ B : List Char,
    charListLt A B = true → charListLt B A = false := by
  induction A with
  | nil =>
    intro B h
    cases B with
    | nil => exact absurd h (by simp [charListLt])
    | cons b bs => rfl
  | cons a as ih =>
    intro B h
    cases B with
    | nil => exact absurd h (by simp [charListLt])
    | cons b bs =>
      rw [charListLt_cons] at h ⊢
      rcases lt_trichotomy a b with hab | hab | hab
      · rw [if_neg (lt_asymm hab), if_pos hab]
      · subst hab
        rw [if_neg (lt_irrefl a), if_neg (lt_irrefl a)] at h ⊢
        exact ih bs h
      · rw [if_neg (lt_asymm hab), if_pos hab] at h
        exact absurd h (by simp)

theorem toISODateL_append (d : DT) (A : List Char) :
    toISODateL d ++ A =
      padDigits 4 d.year.toNat ++ ('-' :: (padDigits 2 d.month ++
        ('-' :: (padDigits 2 d.day ++ A)))) := by
  simp only [toISODateL, List.append_assoc, List.cons_append]

theorem dateL_eq (a b : DT) (hy : a.year = b.year) (hm : a.month = b.month)
    (hd : a.day = b.day) (A B : List Char) :
    charListLt (toISODateL a ++ A) (toISODateL b ++ B) = charListLt A B := by
  rw [toISODateL_append, toISODateL_append, hy, hm, hd]
  rw [charListLt_append_same, charListLt_cons_self, charListLt_append_same,
    charListLt_cons_self, charListLt_append_same]

theorem dateL_lt (a b : DT) (A B : List Char)
    (h1 : 0 ≤ a.year) (h2 : a.year < 10000) (h3 : 0 ≤ b.year) (h4 : b.year < 10000)
    (hma : a.month ≤ 12) (hmb : b.month ≤ 12) (hda : a.day ≤ 31) (hdb : b.day ≤ 31)
    (h : a.year < b.year ∨ (a.year = b.year ∧ (a.month < b.month ∨
      (a.month = b.month ∧ a.day < b.day)))) :
    charListLt (toISODateL a ++ A) (toISODateL b ++ B) = true := by
  rw [toISODateL_append, toISODateL_append]
  have hy4a : a.year.toNat < 10 ^ 4 := by norm_num; omega
  have hy4b : b.year.toNat < 10 ^ 4 := by norm_num; omega
  have hm2a : a.month < 10 ^ 2 := by norm_num; omega
  have hm2b : b.month < 10 ^ 2 := by norm_num; omega
  have hd2a : a.day < 10 ^ 2 := by norm_num; omega
  have hd2b : b.day < 10 ^ 2 := by norm_num; omega
  rcases h with hy | ⟨hy, hm | ⟨hm, hd⟩⟩
  · exact charListLt_append_lt _ _ _ _
      (by rw [padDigits_length, padDigits_length])
      (padDigits_lt 4 _ _ hy4a hy4b (by omega))
  · rw [hy, charListLt_append_same, charListLt_cons_self]
    exact charListLt_append_lt _ _ _ _
      (by rw [padDigits_length, padDigits_length])
      (padDigits_lt 2 _ _ hm2a hm2b hm)
  · rw [hy, hm, charListLt_append_same, charListLt_cons_self,
      charListLt_append_same, charListLt_cons_self]
    exact charListLt_append_lt _ _ _ _
      (by rw [padDigits_length, padDigits_length])
      (padDigits_lt 2 _ _ hd2a hd2b hd)

theorem fields_eq_of_dayNum_eq (a b : DT) (ha : a.WF) (hb : b.WF)
    (h : dayNum a = dayNum b) :
    a.year = b.year ∧ a.month = b.month ∧ a.day = b.day := by
  rcases lt_trichotomy a.year b.year with hy | hy | hy
  · have := dayNum_lt_of_fields a b ha hb (Or.inl hy); omega
  · rcases lt_trichotomy a.month b.month with hm | hm | hm
    · have := dayNum_lt_of_fields a b ha hb (Or.inr ⟨hy, Or.inl hm⟩); omega
    · rcases lt_trichotomy a.day b.day with hd | hd | hd
      · have := dayNum_lt_of_fields a b ha hb (Or.inr ⟨hy, Or.inr ⟨hm, hd⟩⟩); omega
      · exact ⟨hy, hm, hd⟩
      · have := dayNum_lt_of_fields b a hb ha
          (Or.inr ⟨hy.symm, Or.inr ⟨hm.symm, hd⟩⟩)
        omega
    · have := dayNum_lt_of_fields b a hb ha (Or.inr ⟨hy.symm, Or.inl hm⟩); omega
  · have := dayNum_lt_of_fields b a hb ha (Or.inl hy); omega

theorem strLt_toISODate_iff (a b : DT) (ha : a.WF) (hb : b.WF)
    (h1 : 0 ≤ a.year) (h2 : a.year < 10000) (h3 : 0 ≤ b.year) (h4 : b.year < 10000) :
    (strLt (toISODate a) (toISODate b) = true) ↔ dayNum a < dayNum b := by
  obtain ⟨a1, a2, a3, a4, a5⟩ := ha
  obtain ⟨b1, b2, b3, b4, b5⟩ := hb
  have hda := daysInMonth_le31 a.year a.month
  have hdb := daysInMonth_le31 b.year b.month
  have hstr : strLt (toISODate a) (toISODate b) =
      charListLt (toISODateL a ++ []) (toISODateL b ++ []) := by
    rw [List.append_nil, List.append_nil]
    rfl
  rw [hstr]
  rcases lt_trichotomy (dayNum a) (dayNum b) with h | h | h
  · have hf := (dayNum_fields_iff a b ⟨a1, a2, a3, a4, a5⟩ ⟨b1, b2, b3, b4, b5⟩).mp h
    rw [dateL_lt a b [] [] h1 h2 h3 h4 a2 b2 (by omega) (by omega) hf]
    simp [h]
  · obtain ⟨hy, hm, hd⟩ := fields_eq_of_dayNum_eq a b
      ⟨a1, a2, a3, a4, a5⟩ ⟨b1, b2, b3, b4, b5⟩ h
    rw [dateL_eq a b hy hm hd]
    simp [charListLt, h]
  · have hf := (dayNum_fields_iff b a ⟨b1, b2, b3, b4, b5⟩ ⟨a1, a2, a3, a4, a5⟩).mp h
    have hlt := dateL_lt b a [] [] h3 h4 h1 h2 b2 a2 (by omega) (by omega) hf
    have := charListLt_asymm _ _ hlt
    rw [this]
    simp
    omega

theorem timePartL_lt_iff (x y : Nat) (hx : x < 86400000) (hy : y < 86400000) :
    (charListLt (timePartL x) (timePartL y) = true) ↔ x < y := by
  unfold timePartL
  rw [charListLt_cons_self]
  have hhx : x / 3600000 < 10 ^ 2 := by norm_num; omega
  have hhy : y / 3600000 < 10 ^ 2 := by norm_num; omega
  have hmx : x % 3600000 / 60000 < 10 ^ 2 := by norm_num; omega
  have hmy : y % 3600000 / 60000 < 10 ^ 2 := by norm_num; omega
  have hsx : x % 60000 / 1000 < 10 ^ 2 := by norm_num; omega
  have hsy : y % 60000 / 1000 < 10 ^ 2 := by norm_num; omega
  have hfx : x % 1000 < 10 ^ 3 := by norm_num; omega
  have hfy : y % 1000 < 10 ^ 3 := by norm_num; omega
  have hlen2 : ∀ u v : Nat, (padDigits 2 u).length = (padDigits 2 v).length := by
    intro u v; rw [padDigits_length, padDigits_length]
  have hlen3 : ∀ u v : Nat, (padDigits 3 u).length = (padDigits 3 v).length := by
    intro u v; rw [padDigits_length, padDigits_length]
  rcases lt_trichotomy (x / 3600000) (y / 3600000) with hh | hh | hh
  · rw [charListLt_append_lt _ _ _ _ (hlen2 _ _) (padDigits_lt 2 _ _ hhx hhy hh)]
    exact iff_of_true rfl (by omega)
  · rw [hh, charListLt_append_same, charListLt_cons_self]
    rcases lt_trichotomy (x % 3600000 / 60000) (y % 3600000 / 60000) with hm | hm | hm
    · rw [charListLt_append_lt _ _ _ _ (hlen2 _ _) (padDigits_lt 2 _ _ hmx hmy hm)]
      exact iff_of_true rfl (by omega)
    · rw [hm, charListLt_append_same, charListLt_cons_self]
      rcases lt_trichotomy (x % 60000 / 1000) (y % 60000 / 1000) with hs | hs | hs
      · rw [charListLt_append_lt _ _ _ _ (hlen2 _ _) (padDigits_lt 2 _ _ hsx hsy hs)]
        exact iff_of_true rfl (by omega)
      · rw [hs, charListLt_append_same, charListLt_cons_self]
        rcases lt_trichotomy (x % 1000) (y % 1000) with hf | hf | hf
        · rw [charListLt_append_lt _ _ _ _ (hlen3 _ _) (padDigits_lt 3 _ _ hfx hfy hf)]
          exact iff_of_true rfl (by omega)
        · rw [hf, charListLt_append_same, charListLt_cons_self]
          exact iff_of_false (by simp [charListLt]) (by omega)
        · rw [charListLt_asymm _ _
            (charListLt_append_lt _ _ _ _ (hlen3 _ _) (padDigits_lt 3 _ _ hfy hfx hf))]
          exact iff_of_false (by simp) (by omega)
      · rw [charListLt_asymm _ _
          (charListLt_append_lt _ _ _ _ (hlen2 _ _) (padDigits_lt 2 _ _ hsy hsx hs))]
        exact iff_of_false (by simp) (by omega)
    · rw [charListLt_asymm _ _
        (charListLt_append_lt _ _ _ _ (hlen2 _ _) (padDigits_lt 2 _ _ hmy hmx hm))]
      exact iff_of_false (by simp) (by omega)
  · rw [charListLt_asymm _ _
      (charListLt_append_lt _ _ _ _ (hlen2 _ _) (padDigits_lt 2 _ _ hhy hhx hh))]
    exact iff_of_false (by simp) (by omega)

theorem strLt_toISO_iff (a b : DT) (ha : a.WF) (hb : b.WF)
    (h1 : 0 ≤ a.year) (h2 : a.year < 10000) (h3 : 0 ≤ b.year) (h4 : b.year < 10000) :
    (strLt (toISO a) (toISO b) = true) ↔ a.toMs < b.toMs := by
  obtain ⟨a1, a2, a3, a4, a5⟩ := ha
  obtain ⟨b1, b2, b3, b4, b5⟩ := hb
  have hda := daysInMonth_le31 a.year a.month
  have hdb := daysInMonth_le31 b.year b.month
  have hstr : strLt (toISO a) (toISO b) =
      charListLt (toISODateL a ++ timePartL a.ms) (toISODateL b ++ timePartL b.ms) := rfl
  rw [hstr]
  have hms : ∀ u v : DT, dayNum u < dayNum v → u.ms < msPerDay → v.ms < msPerDay →
      u.toMs < v.toMs := fun u v h hu hv => toMs_lt_of_dayNum_lt u v hu hv h
  rcases lt_trichotomy (dayNum a) (dayNum b) with h | h | h
  · have hf := (dayNum_fields_iff a b ⟨a1, a2, a3, a4, a5⟩ ⟨b1, b2, b3, b4, b5⟩).mp h
    rw [dateL_lt a b _ _ h1 h2 h3 h4 a2 b2 (by omega) (by omega) hf]
    exact iff_of_true rfl (hms a b h a5 b5)
  · obtain ⟨hy, hm, hd⟩ := fields_eq_of_dayNum_eq a b
      ⟨a1, a2, a3, a4, a5⟩ ⟨b1, b2, b3, b4, b5⟩ h
    rw [dateL_eq a b hy hm hd]
    rw [timePartL_lt_iff a.ms b.ms (by have := a5; unfold msPerDay at this; omega)
      (by have := b5; unfold msPerDay at this; omega)]
    unfold DT.toMs msPerDay
    omega
  · have hf := (dayNum_fields_iff b a ⟨b1, b2, b3, b4, b5⟩ ⟨a1, a2, a3, a4, a5⟩).mp h
    rw [charListLt_asymm _ _
      (dateL_lt b a _ _ h3 h4 h1 h2 b2 a2 (by omega) (by omega) hf)]
    exact iff_of_false (by simp) (by have := hms b a h b5 a5; omega)

/-! ### Parsing lemmas -/

theorem digitVal_digitChar (x : Nat) (h : x < 10) : digitVal (digitChar x) = x := by
  interval_cases x <;> decide

theorem digitChar_isDigit (x : Nat) (h : x < 10) : (digitChar x).isDigit = true := by
  interval_cases x <;> decide

theorem digitChar_ne_dash (x : Nat) (h : x < 10) : digitChar x ≠ '-' := by
  interval_cases x <;> decide

theorem isDigit_ne (c : Char) (h : c.isDigit = true) :
    c ≠ ' ' ∧ c ≠ '\t' ∧ c ≠ '\n' ∧ c ≠ '\r' ∧ c ≠ '-' ∧ c ≠ '+' := by
  refine ⟨?_, ?_, ?_, ?_, ?_, ?_⟩ <;>
    (intro he; rw [he] at h; exact absurd h (by decide))

theorem takeWhile_all (l : List Char) (p : Char → Bool) (h : ∀ c ∈ l, p c = true) :
    l.takeWhile p = l := by
  induction l with
  | nil => rfl
  | cons a as ih =>
    have h1 := h a (List.mem_cons_self a as)
    have h2 := ih fun c hc => h c (List.mem_cons_of_mem a hc)
    simp [List.takeWhile_cons, h1, h2]

theorem padDigits_all_digit (k : Nat) : ∀ n : Nat, n < 10 ^ k →
    ∀ c ∈ padDigits k n, c.isDigit = true := by
  induction k with
  | zero => intro n hn c hc; simp [padDigits] at hc
  | succ k ih =>
    intro n hn c hc
    have hpow : 0 < 10 ^ k := Nat.pos_pow_of_pos k (by omega)
    have hd : n / 10 ^ k < 10 := by
      rw [Nat.div_lt_iff_lt_mul hpow]
      calc n < 10 ^ (k + 1) := hn
        _ = 10 * 10 ^ k := by ring
        _ ≤ 10 * 10 ^ k := le_refl _
    simp only [padDigits, List.mem_cons] at hc
    rcases hc with rfl | hc
    · exact digitChar_isDigit _ hd
    · exact ih _ (Nat.mod_lt n hpow) c hc

theorem foldl_padDigits (k : Nat) : ∀ n a : Nat, n < 10 ^ k →
    (padDigits k n).foldl (fun acc c => acc * 10 + digitVal c) a = a * 10 ^ k + n := by
  induction k with
  | zero =>
    intro n a hn
    simp only [pow_zero, Nat.lt_one_iff] at hn
    subst hn
    simp [padDigits]
  | succ k ih =>
    intro n a hn
    have hpow : 0 < 10 ^ k := Nat.pos_pow_of_pos k (by omega)
    have hd : n / 10 ^ k < 10 := by
      rw [Nat.div_lt_iff_lt_mul hpow]
      calc n < 10 ^ (k + 1) := hn
        _ = 10 * 10 ^ k := by ring
        _ ≤ 10 * 10 ^ k := le_refl _
    simp only [padDigits, List.foldl_cons]
    rw [digitVal_digitChar _ hd, ih (n % 10 ^ k) _ (Nat.mod_lt n hpow)]
    calc (a * 10 + n / 10 ^ k) * 10 ^ k + n % 10 ^ k
        = a * (10 ^ k * 10) + (10 ^ k * (n / 10 ^ k) + n % 10 ^ k) := by ring
      _ = a * 10 ^ (k + 1) + n := by rw [Nat.div_add_mod, pow_succ]

theorem parseDigs_padDigits (k n : Nat) (hk : 1 ≤ k) (hn : n < 10 ^ k) :
    parseDigs (padDigits k n) = some n := by
  unfold parseDigs
  rw [takeWhile_all _ _ (padDigits_all_digit k n hn)]
  rw [if_neg (by
    intro he
    have := padDigits_length k n
    rw [he] at this
    simp at this
    omega)]
  rw [foldl_padDigits k n 0 hn]
  simp

theorem jsParseIntL_cons_eval (c : Char) (r : List Char)
    (h1 : c ≠ ' ') (h2 : c ≠ '\t') (h3 : c ≠ '\n') (h4 : c ≠ '\r') :
    jsParseIntL (c :: r) =
      (if c = '-' then (parseDigs r).map fun n => -(n : Int)
        else if c = '+' then (parseDigs r).map fun n => (n : Int)
        else (parseDigs (c :: r)).map fun n => (n : Int)) := by
  unfold jsParseIntL
  rw [List.dropWhile_cons, if_neg (by simp [h1, h2, h3, h4])]

theorem jsParseIntL_padDigits (k n : Nat) (hk : 1 ≤ k) (hn : n < 10 ^ k) :
    jsParseIntL (padDigits k n) = some (n : Int) := by
  obtain ⟨k', rfl⟩ : ∃ k', k = k' + 1 := ⟨k - 1, by omega⟩
  have hpow : 0 < 10 ^ k' := Nat.pos_pow_of_pos k' (by omega)
  have hd : n / 10 ^ k' < 10 := by
    rw [Nat.div_lt_iff_lt_mul hpow]
    calc n < 10 ^ (k' + 1) := hn
      _ = 10 * 10 ^ k' := by ring
      _ ≤ 10 * 10 ^ k' := le_refl _
  have hdig := digitChar_isDigit _ hd
  obtain ⟨hw1, hw2, hw3, hw4, hm, hp⟩ := isDigit_ne _ hdig
  show jsParseIntL (digitChar (n / 10 ^ k') :: padDigits k' (n % 10 ^ k')) = some (n : Int)
  rw [jsParseIntL_cons_eval _ _ hw1 hw2 hw3 hw4]
  rw [if_neg hm, if_neg hp]
  rw [show digitChar (n / 10 ^ k') :: padDigits k' (n % 10 ^ k') =
    padDigits (k' + 1) n from rfl]
  rw [parseDigs_padDigits (k' + 1) n (by omega) hn]
  rfl

theorem padDigits_no_dash (k : Nat) : ∀ n : Nat, n < 10 ^ k →
    ∀ c ∈ padDigits k n, c ≠ '-' := by
  intro n hn c hc
  have := padDigits_all_digit k n hn c hc
  exact (isDigit_ne c this).2.2.2.2.1

theorem splitDash_cons (c : Char) (r : List Char) :
    splitDash (c :: r) =
      (if c = '-' then [] :: splitDash r
        else match splitDash r with
          | [] => [[c]]
          | p :: ps => (c :: p) :: ps) := rfl

theorem splitDash_append (A : List Char) (h : ∀ c ∈ A, c ≠ '-') (rest : List Char) :
    splitDash (A ++ '-' :: rest) = A :: splitDash rest := by
  induction A with
  | nil =>
    show splitDash ('-' :: rest) = [] :: splitDash rest
    rw [splitDash_cons, if_pos rfl]
  | cons a as ih =>
    have ha : a ≠ '-' := h a (List.mem_cons_self a as)
    have hrec := ih fun c hc => h c (List.mem_cons_of_mem a hc)
    show splitDash (a :: (as ++ '-' :: rest)) = (a :: as) :: splitDash rest
    rw [splitDash_cons, if_neg ha, hrec]

theorem splitDash_single (A : List Char) (h : ∀ c ∈ A, c ≠ '-') :
    splitDash A = [A] := by
  induction A with
  | nil => rfl
  | cons a as ih =>
    have ha : a ≠ '-' := h a (List.mem_cons_self a as)
    have hrec := ih fun c hc => h c (List.mem_cons_of_mem a hc)
    show splitDash (a :: as) = [a :: as]
    rw [splitDash_cons, if_neg ha, hrec]

theorem succDay_iter_within (y : Int) (m : Nat) (j k : Nat) (hj : 1 ≤ j)
    (hk : j + k ≤ daysInMonth y m) : succDay^[k] ⟨y, m, j, 0⟩ = ⟨y, m, j + k, 0⟩ := by
  induction k generalizing j with
  | zero => rfl
  | succ n ih =>
    rw [Function.iterate_succ_apply]
    have hstep : succDay ⟨y, m, j, 0⟩ = ⟨y, m, j + 1, 0⟩ := by
      unfold succDay
      rw [if_pos]
      show j < daysInMonth y m
      omega
    rw [hstep, ih (j + 1) (by omega) (by omega)]
    have : j + 1 + n = j + (n + 1) := by omega
    rw [this]

theorem dtOfUTC_eval (y m0 dayArg : Int) :
    dtOfUTC y m0 dayArg =
      addDays ⟨(y * 12 + m0) / 12, ((y * 12 + m0) % 12).toNat + 1, 1, 0⟩ (dayArg - 1) := rfl

theorem dtOfUTC_canonical (y : Int) (m d : Nat) (hm1 : 1 ≤ m) (hm2 : m ≤ 12)
    (hd1 : 1 ≤ d) (hd2 : d ≤ daysInMonth y m) :
    dtOfUTC y ((m : Int) - 1) (d : Int) = ⟨y, m, d, 0⟩ := by
  rw [dtOfUTC_eval]
  have e1 : (y * 12 + ((m : Int) - 1)) / 12 = y := by omega
  have e2 : ((y * 12 + ((m : Int) - 1)) % 12).toNat + 1 = m := by omega
  rw [e1, e2]
  unfold addDays
  rw [if_pos (by omega : (0 : Int) ≤ (d : Int) - 1)]
  have e3 : ((d : Int) - 1).toNat = d - 1 := by omega
  rw [e3]
  rw [succDay_iter_within y m 1 (d - 1) (le_refl 1) (by omega)]
  have : 1 + (d - 1) = d := by omega
  rw [this]

theorem navParseDate_toISODate (d : DT) (h : d.WF)
    (h1 : 0 ≤ d.year) (h2 : d.year < 10000) :
    navParseDate (toISODate d) = some ⟨d.year, d.month, d.day, 0⟩ := by
  obtain ⟨m1, m2, dd1, dd2, _⟩ := h
  have hd31 := daysInMonth_le31 d.year d.month
  have hy4 : d.year.toNat < 10 ^ 4 := by norm_num; omega
  have hm2' : d.month < 10 ^ 2 := by norm_num; omega
  have hd2' : d.day < 10 ^ 2 := by norm_num; omega
  unfold navParseDate toISODate
  rw [data_mk]
  unfold toISODateL
  rw [splitDash_append _ (padDigits_no_dash 4 _ hy4),
    splitDash_append _ (padDigits_no_dash 2 _ hm2'),
    splitDash_single _ (padDigits_no_dash 2 _ hd2')]
  simp only [jsParseIntL_padDigits 4 _ (by omega) hy4,
    jsParseIntL_padDigits 2 _ (by omega) hm2',
    jsParseIntL_padDigits 2 _ (by omega) hd2']
  rw [Int.toNat_of_nonneg h1]
  rw [dtOfUTC_canonical d.year d.month d.day m1 m2 dd1 dd2]

/-! ### Sequencer structure lemmas -/

theorem getFormattedBoundary_lt (type : String) (a b : DT) (ha : a.WF) (hb : b.WF)
    (h1 : 0 ≤ a.year) (h2 : a.year < 10000) (h3 : 0 ≤ b.year) (h4 : b.year < 10000)
    (hms : a.ms = b.ms) (h : dayNum a < dayNum b) :
    strLt (getFormattedBoundary type a) (getFormattedBoundary type b) = true := by
  unfold getFormattedBoundary
  by_cases ht : isTimeBased type = true
  · rw [if_pos ht, if_pos ht]
    refine (strLt_toISO_iff a b ha hb h1 h2 h3 h4).mpr ?_
    unfold DT.toMs msPerDay
    rw [hms]
    omega
  · rw [if_neg ht, if_neg ht]
    exact (strLt_toISODate_iff a b ha hb h1 h2 h3 h4).mpr h

theorem year_bound_of_le_end (sd endD : DT) (hwf : sd.WF) (hend : endD.WF)
    (hy : endD.year < 10000) (h : sd.toMs ≤ endD.toMs) : sd.year < 10000 := by
  have h1 := dayNum_le_of_toMs_le sd endD hwf.2.2.2.2 hend.2.2.2.2 h
  have h2 := year_le_of_dayNum_le sd endD hwf hend h1
  omega

theorem calcCalendarAux_chain (type : String) (endD now : DT) (hend : endD.WF)
    (hy : endD.year < 10000) (f : Nat) :
    ∀ sd : DT, sd.WF → 0 ≤ sd.year →
      List.Chain' (fun a b => strLt a b = true) (calcCalendarAux type endD now f sd) := by
  induction f with
  | zero =>
    intro sd _ _
    exact List.chain'_nil
  | succ f ih =>
    intro sd hwf hy0
    unfold calcCalendarAux
    by_cases hc : sd.toMs ≤ endD.toMs ∧ sd.toMs ≤ now.toMs
    · rw [if_pos hc]
      obtain ⟨hstep, hwf'⟩ := advanceSeq_toMs type sd hwf
      rw [if_neg (by unfold msPerDay at hstep; omega)]
      obtain ⟨hdn, _, hmseq⟩ := advanceSeq_spec type sd hwf
      have hy0' : 0 ≤ (advanceSeq type sd).year := by
        have := year_le_of_dayNum_le sd (advanceSeq type sd) hwf hwf' (by omega)
        omega
      refine List.chain'_cons'.mpr ⟨?_, ih (advanceSeq type sd) hwf' hy0'⟩
      intro b hb
      rcases calcCalendarAux_head type endD now f (advanceSeq type sd) with
        hnil | ⟨hce, hcn, rest, heq⟩
      · rw [hnil] at hb
        simp at hb
      · rw [heq] at hb
        simp only [List.head?_cons, Option.mem_def, Option.some_inj] at hb
        subst hb
        exact getFormattedBoundary_lt type sd (advanceSeq type sd) hwf hwf' hy0
          (year_bound_of_le_end sd endD hwf hend hy hc.1) hy0'
          (year_bound_of_le_end _ endD hwf' hend hy hce) hmseq.symm (by omega)
    · rw [if_neg hc]
      exact List.chain'_nil

theorem advanceNav_one (type : String) (d : DT) :
    advanceNav type 1 d = advanceSeq type d := by
  unfold advanceNav advanceSeq
  norm_num

theorem calcCalendarAux_consec (type : String) (endD now : DT) :
    ∀ (f : Nat) (sd : DT), sd.WF →
      ∀ (i : Nat) (a b : String),
        (calcCalendarAux type endD now f sd).get? i = some a →
        (calcCalendarAux type endD now f sd).get? (i + 1) = some b →
        ∃ c : DT, c.WF ∧ c.ms = sd.ms ∧ sd.toMs ≤ c.toMs ∧
          a = getFormattedBoundary type c ∧
          b = getFormattedBoundary type (advanceSeq type c) ∧
          (advanceSeq type c).toMs ≤ endD.toMs ∧ (advanceSeq type c).toMs ≤ now.toMs := by
  intro f
  induction f with
  | zero =>
    intro sd hwf i a b ha hb
    exact absurd ha (by simp [calcCalendarAux])
  | succ f ih =>
    intro sd hwf i a b ha hb
    unfold calcCalendarAux at ha hb
    by_cases hc : sd.toMs ≤ endD.toMs ∧ sd.toMs ≤ now.toMs
    · rw [if_pos hc] at ha hb
      obtain ⟨hstep, hwf'⟩ := advanceSeq_toMs type sd hwf
      rw [if_neg (by unfold msPerDay at hstep; omega)] at ha hb
      cases i with
      | zero =>
        simp only [List.get?_cons_zero, Option.some_inj] at ha
        simp only [List.get?_cons_succ] at hb
        rcases calcCalendarAux_head type endD now f (advanceSeq type sd) with
          hnil | ⟨hce, hcn, rest, heq⟩
        · rw [hnil] at hb
          exact absurd hb (by simp)
        · rw [heq] at hb
          simp only [List.get?_cons_zero, Option.some_inj] at hb
          exact ⟨sd, hwf, rfl, le_refl _, ha.symm, hb.symm, hce, hcn⟩
      | succ j =>
        simp only [List.get?_cons_succ] at ha hb
        obtain ⟨c, hcwf, hcms, hcge, hfa, hfb, hde, hdn⟩ :=
          ih (advanceSeq type sd) hwf' j a b ha hb
        obtain ⟨_, _, hmseq⟩ := advanceSeq_spec type sd hwf
        exact ⟨c, hcwf, by rw [hcms, hmseq], le_trans (by omega) hcge,
          hfa, hfb, hde, hdn⟩
    · rw [if_neg hc] at ha
      exact absurd ha (by simp)

theorem specAdvance_eq_advanceSeq (type : String)
    (htype : type = "Daily" ∨ type = "Weekly" ∨ type = "BiWeekly" ∨ type = "Monthly" ∨
      type = "PerMinute" ∨ type = "PerHour") (d : DT) :
    specAdvance type d = advanceSeq type d := by
  rcases htype with rfl | rfl | rfl | rfl | rfl | rfl <;>
    simp [specAdvance, advanceSeq]

theorem calcCalendarAux_eq_specSeq (type : String) (endD now : DT)
    (htype : type = "Daily" ∨ type = "Weekly" ∨ type = "BiWeekly" ∨ type = "Monthly" ∨
      type = "PerMinute" ∨ type = "PerHour") (f : Nat) :
    ∀ sd : DT, sd.WF →
      calcCalendarAux type endD now f sd = specSeq type endD now f sd := by
  induction f with
  | zero => intro sd _; rfl
  | succ f ih =>
    intro sd hwf
    unfold calcCalendarAux specSeq
    by_cases hc : sd.toMs ≤ endD.toMs ∧ sd.toMs ≤ now.toMs
    · rw [if_pos hc, if_pos hc]
      obtain ⟨hstep, hwf'⟩ := advanceSeq_toMs type sd hwf
      rw [if_neg (by unfold msPerDay at hstep; omega)]
      rw [specAdvance_eq_advanceSeq type htype sd]
      rw [ih (advanceSeq type sd) hwf']
    · rw [if_neg hc, if_neg hc]

/-! ### Claim theorems -/

/-- C1 counterexample: a Counter-scheme configuration with `start = 1` and
`end = 5` does not yield the sequence `1, 2, 3, 4, 5`; `calculateBoundaries`
returns the empty list for counter contexts. -/
theorem c1_counterexample :
    ¬ (calculateBoundaries ⟨"CustomCounter", "Counter", .n 1, some (.n 5), true, "G"⟩
        ⟨2025, 6, 15, 0⟩ 10 = ["1", "2", "3", "4", "5"]) := by
  decide

/-- C1 (amended): for every Counter-scheme configuration the
BoundarySequencer returns the empty sequence — counter boundaries are
never enumerated client-side (navigation steps the counter directly). -/
theorem c1_counter_empty (ctx : PartitionContext) (now : DT) (fuel : Nat)
    (h : ctx.isCounter = true) :
    calculateBoundaries ctx now fuel = [] := by
  unfold calculateBoundaries
  rw [if_pos h]

/-- C1 witness: the amended theorem applied to a concrete counter context. -/
theorem c1_counter_empty_witness :
    calculateBoundaries ⟨"CustomCounter", "Counter", .n 1, some (.n 5), true, "G"⟩
      ⟨2025, 6, 15, 0⟩ 10 = [] :=
  c1_counter_empty ⟨"CustomCounter", "Counter", .n 1, some (.n 5), true, "G"⟩
    ⟨2025, 6, 15, 0⟩ 10 rfl

/-- C2 counterexample: with a `PerMinute` scheme the sequencer does not add
one minute per step — starting at `00:00` with end `00:03` it would emit
four boundaries a minute apart, but the code's `switch` has no `PerMinute`
case and adds one day, so only the start boundary is emitted. -/
theorem c2_counterexample :
    ¬ (calculateBoundaries
        ⟨"PerMinute", "PM", .s "2025-01-01T00:00:00.000Z",
          some (.s "2025-01-01T00:03:00.000Z"), false, "G"⟩ ⟨2026, 1, 1, 0⟩ 10 =
      ["2025-01-01T00:00:00.000Z", "2025-01-01T00:01:00.000Z",
        "2025-01-01T00:02:00.000Z", "2025-01-01T00:03:00.000Z"]) := by
  decide

/-- C2 (amended): for every calendar scheme the sequencer starts at `start`
and repeatedly adds the scheme increment — Weekly 7 days, BiWeekly 14 days,
Monthly 1 calendar month, and Daily, PerMinute and PerHour 1 day (the
time-granularity schemes take the default branch) — emitting each boundary
while it is `<= end` and `<= now`: the loop equals the claim-side
recursion `specSeq`. -/
theorem c2_calendar_increments (ctx : PartitionContext) (now sd ed : DT) (fuel : Nat)
    (s e : String)
    (hct : ctx.isCounter = false) (hs : ctx.start = .s s) (he : ctx.endB = some (.s e))
    (hps : parseISO s = some sd) (hpe : parseISO e = some ed) (hwf : sd.WF)
    (htype : ctx.type = "Daily" ∨ ctx.type = "Weekly" ∨ ctx.type = "BiWeekly" ∨
      ctx.type = "Monthly" ∨ ctx.type = "PerMinute" ∨ ctx.type = "PerHour") :
    calculateBoundaries ctx now fuel = specSeq ctx.type ed now fuel sd := by
  unfold calculateBoundaries
  rw [if_neg (by simp [hct]), hs, he]
  simp only [hps, hpe]
  exact calcCalendarAux_eq_specSeq ctx.type ed now htype fuel sd hwf

/-- C2 witness: the amended theorem applied to a concrete Daily context. -/
theorem c2_calendar_increments_witness :
    calculateBoundaries ⟨"Daily", "D", .s "2025-01-01", some (.s "2025-01-05"), false, "G"⟩
        ⟨2026, 1, 1, 0⟩ 10 =
      specSeq "Daily" ⟨2025, 1, 5, 0⟩ ⟨2026, 1, 1, 0⟩ 10 ⟨2025, 1, 1, 0⟩ :=
  c2_calendar_increments
    ⟨"Daily", "D", .s "2025-01-01", some (.s "2025-01-05"), false, "G"⟩
    ⟨2026, 1, 1, 0⟩ ⟨2025, 1, 1, 0⟩ ⟨2025, 1, 5, 0⟩ 10 "2025-01-01" "2025-01-05"
    rfl rfl rfl (by decide) (by decide) (by decide) (Or.inl rfl)

/-- C8 counterexample: the sequencer reads the ambient clock — the same
configuration run at `2025-01-02` and at `2025-01-03` returns different
sequences (2 vs 3 boundaries), so the result does depend on the clock
reading between two runs. -/
theorem c8_counterexample :
    calculateBoundaries ⟨"Daily", "D", .s "2025-01-01", some (.s "2025-01-10"), false, "G"⟩
        ⟨2025, 1, 2, 0⟩ 20 ≠
      calculateBoundaries ⟨"Daily", "D", .s "2025-01-01", some (.s "2025-01-10"), false, "G"⟩
        ⟨2025, 1, 3, 0⟩ 20 := by
  decide

/-- C8 (amended): the sequencer is deterministic as a function of the
resolved configuration and the clock instant: its output depends only on
the scheme, the counter flag, `start`, `end` and `now` — two contexts
agreeing on those fields (whatever their labels) give identical sequences,
but runs at different clock instants may differ. -/
theorem c8_deterministic (ctx ctx' : PartitionContext) (now : DT) (fuel : Nat)
    (ht : ctx.type = ctx'.type) (hc : ctx.isCounter = ctx'.isCounter)
    (hs : ctx.start = ctx'.start) (he : ctx.endB = ctx'.endB) :
    calculateBoundaries ctx now fuel = calculateBoundaries ctx' now fuel := by
  unfold calculateBoundaries
  rw [ht, hc, hs, he]

/-- C8 witness: two contexts differing only in label and group name give
identical sequences. -/
theorem c8_deterministic_witness :
    calculateBoundaries ⟨"Daily", "Label A", .s "2025-01-01", some (.s "2025-01-10"),
        false, "Group A"⟩ ⟨2025, 1, 3, 0⟩ 20 =
      calculateBoundaries ⟨"Daily", "Label B", .s "2025-01-01", some (.s "2025-01-10"),
        false, "Group B"⟩ ⟨2025, 1, 3, 0⟩ 20 :=
  c8_deterministic
    ⟨"Daily", "Label A", .s "2025-01-01", some (.s "2025-01-10"), false, "Group A"⟩
    ⟨"Daily", "Label B", .s "2025-01-01", some (.s "2025-01-10"), false, "Group B"⟩
    ⟨2025, 1, 3, 0⟩ 20 rfl rfl rfl rfl

/-- C9: for a Counter-scheme goal whose stored start value does not parse
as an integer, the Resolver falls back to `start = 0`, and a non-parsing
stored end resolves to no end bound (`null`). -/
theorem c9_counter_fallback (g : Goal) (gs : List Goal) (now : DT)
    (hct : g.partition_type = "CustomCounter")
    (hstart : jsParseInt g.start_date = none) :
    (partitionContext (g :: gs) now).start = .n 0 ∧
    (jsParseInt g.end_date = none → (partitionContext (g :: gs) now).endB = none) := by
  unfold partitionContext
  simp only [hct]
  constructor
  · by_cases hse : g.start_date = ""
    · simp [hse]
    · simp [hse, hstart]
  · intro hend
    by_cases hee : g.end_date = ""
    · simp [hee]
    · simp [hee, hend]

/-- C9 witness: a counter goal with non-numeric bounds. -/
theorem c9_counter_fallback_witness :
    (partitionContext [⟨"g1", "n", "count", "Grp", "CustomCounter", none, "abc", "xyz"⟩]
        ⟨2025, 6, 15, 0⟩).start = .n 0 ∧
    (jsParseInt "xyz" = none →
      (partitionContext [⟨"g1", "n", "count", "Grp", "CustomCounter", none, "abc", "xyz"⟩]
        ⟨2025, 6, 15, 0⟩).endB = none) :=
  c9_counter_fallback ⟨"g1", "n", "count", "Grp", "CustomCounter", none, "abc", "xyz"⟩ []
    ⟨2025, 6, 15, 0⟩ rfl (by decide)

/-- C10: the resolved partition context depends only on the first goal —
two goal lists with equal heads resolve identically — and an empty list
yields the default Daily context starting today with end `2099-12-31`. -/
theorem c10_resolver_head_only (gs gs' : List Goal) (now : DT)
    (h : gs.head? = gs'.head?) :
    partitionContext gs now = partitionContext gs' now ∧
    partitionContext [] now =
      ⟨"Daily", "Daily Entry", .s (toISODate now), some (.s "2099-12-31"),
        false, "Default"⟩ := by
  constructor
  · cases gs with
    | nil =>
      cases gs' with
      | nil => rfl
      | cons g' t' => simp at h
    | cons g t =>
      cases gs' with
      | nil => simp at h
      | cons g' t' =>
        simp only [List.head?_cons, Option.some_inj] at h
        subst h
        rfl
  · rfl

/-- C10 witness: two lists sharing the first goal but different tails. -/
theorem c10_resolver_head_only_witness :
    partitionContext
        [⟨"g1", "n", "count", "Grp", "Daily", none, "2025-01-01", "2025-03-01"⟩,
          ⟨"g2", "m", "count", "Other", "Weekly", none, "2020-01-01", ""⟩]
        ⟨2025, 1, 3, 0⟩ =
      partitionContext
        [⟨"g1", "n", "count", "Grp", "Daily", none, "2025-01-01", "2025-03-01"⟩]
        ⟨2025, 1, 3, 0⟩ ∧
    partitionContext [] ⟨2025, 1, 3, 0⟩ =
      ⟨"Daily", "Daily Entry", .s (toISODate ⟨2025, 1, 3, 0⟩), some (.s "2099-12-31"),
        false, "Default"⟩ :=
  c10_resolver_head_only
    [⟨"g1", "n", "count", "Grp", "Daily", none, "2025-01-01", "2025-03-01"⟩,
      ⟨"g2", "m", "count", "Other", "Weekly", none, "2020-01-01", ""⟩]
    [⟨"g1", "n", "count", "Grp", "Daily", none, "2025-01-01", "2025-03-01"⟩]
    ⟨2025, 1, 3, 0⟩ rfl

/-- C6 counterexample: a Counter-scheme group with an absent stored end
resolves to a `null` end — the Resolver's output end can be null, contrary
to the claim that it never is (Counter schemes included). -/
theorem c6_counterexample :
    (partitionContext [⟨"g1", "n", "count", "Grp", "CustomCounter", none, "1", ""⟩]
      ⟨2025, 6, 15, 0⟩).endB = none := by
  decide

/-- C6 (amended): for calendar (non-Counter) schemes the Resolver's end is
never null — for date-granularity schemes it is the lexicographic minimum
of the configured end's date part (or the `2099-12-31` sentinel) and
today's UTC date, and for time-granularity schemes it is the earlier of
the configured end timestamp and `now` — while for Counter schemes an
absent (or non-numeric) stored end resolves to a null end. -/
theorem c6_resolver_end (g : Goal) (gs : List Goal) (now : DT) :
    (g.partition_type ≠ "CustomCounter" →
      (∃ e, (partitionContext (g :: gs) now).endB = some e) ∧
      (isTimeBased g.partition_type = false →
        (partitionContext (g :: gs) now).endB =
          some (.s (strMin (if g.end_date ≠ "" then datePart g.end_date else "2099-12-31")
            (toISODate now)))) ∧
      (∀ ed : DT, isTimeBased g.partition_type = true → g.end_date ≠ "" →
        parseISO g.end_date = some ed →
        (partitionContext (g :: gs) now).endB =
          some (.s (toISO (if ed.toMs < now.toMs then ed else now))))) ∧
    (g.partition_type = "CustomCounter" → g.end_date = "" →
      (partitionContext (g :: gs) now).endB = none) := by
  constructor
  · intro hnc
    refine ⟨?_, ?_, ?_⟩
    · unfold partitionContext
      simp only [hnc]
      by_cases htb : isTimeBased g.partition_type = true
      · simp [htb]
      · simp [htb, strMin]
    · intro htb
      unfold partitionContext
      simp only [hnc, htb]
      simp [strMin]
    · intro ed htb hne hparse
      unfold partitionContext
      simp [hnc, htb, hne, hparse]
  · intro hc hee
    unfold partitionContext
    simp only [hc, hee]
    simp

/-- C6 witness: the amended theorem applied to a concrete date-granularity
goal shows the resolved end is present. -/
theorem c6_resolver_end_witness :
    ∃ e, (partitionContext
        [⟨"g1", "n", "count", "Grp", "Daily", none, "2025-01-01", "2025-03-01"⟩]
        ⟨2025, 1, 3, 0⟩).endB = some e :=
  ((c6_resolver_end ⟨"g1", "n", "count", "Grp", "Daily", none, "2025-01-01", "2025-03-01"⟩
    [] ⟨2025, 1, 3, 0⟩).1 (by decide)).1

theorem strLt_false_trans (a b e : String) (hab : strLt a b = true)
    (hge : strLt e b = false) : strLt e a = false := by
  cases hx : strLt e a with
  | false => rfl
  | true =>
    have := charListLt_trans e.data a.data b.data hx hab
    unfold strLt at hge
    rw [hge] at this
    exact absurd this (by simp)

/-- C4: with a Weekly scheme starting 2025-01-01 whose end is at or after
2025-01-15, stepping with `delta = -1` from 2025-01-15 yields 2025-01-08,
stepping again yields 2025-01-01, and a third step is refused: a candidate
before `start` is clamped to exactly `start`, so the boundary stays
2025-01-01. -/
theorem c4_weekly_backstep (es : String) (hge : strLt es "2025-01-15" = false) :
    changeBoundary ⟨"Weekly", "W", .s "2025-01-01", some (.s es), false, "G"⟩
        (.s "2025-01-15") (-1) = .s "2025-01-08" ∧
    changeBoundary ⟨"Weekly", "W", .s "2025-01-01", some (.s es), false, "G"⟩
        (.s "2025-01-08") (-1) = .s "2025-01-01" ∧
    changeBoundary ⟨"Weekly", "W", .s "2025-01-01", some (.s es), false, "G"⟩
        (.s "2025-01-01") (-1) = .s "2025-01-01" := by
  have hs08 : strLt es "2025-01-08" = false :=
    strLt_false_trans "2025-01-08" "2025-01-15" es (by decide) hge
  have hs01 : strLt es "2025-01-01" = false :=
    strLt_false_trans "2025-01-01" "2025-01-15" es (by decide) hge
  refine ⟨?_, ?_, ?_⟩
  · have hp : navParseDate "2025-01-15" = some ⟨2025, 1, 15, 0⟩ := by decide
    have hadv : advanceNav "Weekly" (-1) ⟨2025, 1, 15, 0⟩ = ⟨2025, 1, 8, 0⟩ := by decide
    simp [changeBoundary, hp, hadv, hs08, show toISODate ⟨2025, 1, 8, 0⟩ = "2025-01-08"
      from by decide, show isTimeBased "Weekly" = false from by decide,
      show strLt "2025-01-08" "2025-01-01" = false from by decide]
  · have hp : navParseDate "2025-01-08" = some ⟨2025, 1, 8, 0⟩ := by decide
    have hadv : advanceNav "Weekly" (-1) ⟨2025, 1, 8, 0⟩ = ⟨2025, 1, 1, 0⟩ := by decide
    simp [changeBoundary, hp, hadv, hs01, show toISODate ⟨2025, 1, 1, 0⟩ = "2025-01-01"
      from by decide, show isTimeBased "Weekly" = false from by decide,
      show strLt "2025-01-01" "2025-01-01" = false from by decide]
  · have hp : navParseDate "2025-01-01" = some ⟨2025, 1, 1, 0⟩ := by decide
    have hadv : advanceNav "Weekly" (-1) ⟨2025, 1, 1, 0⟩ = ⟨2024, 12, 25, 0⟩ := by decide
    simp [changeBoundary, hp, hadv, show toISODate ⟨2024, 12, 25, 0⟩ = "2024-12-25"
      from by decide, show isTimeBased "Weekly" = false from by decide,
      show strLt "2024-12-25" "2025-01-01" = true from by decide]

/-- C4 witness: the scenario with concrete end 2025-01-20. -/
theorem c4_weekly_backstep_witness :
    changeBoundary ⟨"Weekly", "W", .s "2025-01-01", some (.s "2025-01-20"), false, "G"⟩
        (.s "2025-01-15") (-1) = .s "2025-01-08" ∧
    changeBoundary ⟨"Weekly", "W", .s "2025-01-01", some (.s "2025-01-20"), false, "G"⟩
        (.s "2025-01-08") (-1) = .s "2025-01-01" ∧
    changeBoundary ⟨"Weekly", "W", .s "2025-01-01", some (.s "2025-01-20"), false, "G"⟩
        (.s "2025-01-01") (-1) = .s "2025-01-01" :=
  c4_weekly_backstep "2025-01-20" (by decide)

theorem valid_counter_none_eval (ctx : PartitionContext) (c s : Int)
    (hc : ctx.isCounter = true) (hst : ctx.start = .n s) (hend : ctx.endB = none) :
    (isBoundaryValid ctx (some (.n c)) = true ↔ ¬ c < s) := by
  unfold isBoundaryValid
  rw [hst, hend]
  simp [hc, numOf]

theorem valid_counter_some_eval (ctx : PartitionContext) (c s ev : Int)
    (hc : ctx.isCounter = true) (hst : ctx.start = .n s)
    (hend : ctx.endB = some (.n ev)) :
    (isBoundaryValid ctx (some (.n c)) = true ↔ ¬ c < s ∧ ¬ ev < c) := by
  unfold isBoundaryValid
  rw [hst, hend]
  simp [hc, numOf]

theorem valid_counter_s_eval (ctx : PartitionContext) (str : String)
    (hc : ctx.isCounter = true) :
    isBoundaryValid ctx (some (.s str)) = true ↔
      (match ctx.endB with
        | none => True
        | some e => match numOf (BVal.s str), numOf e with
          | some c', some e' => ¬ e' < c'
          | _, _ => True) := by
  unfold isBoundaryValid
  simp [hc, numOf]
  cases ctx.endB with
  | none => simp
  | some e => simp [numOf]

theorem valid_calendar_eval (ctx : PartitionContext) (cs ss es : String)
    (hc : ctx.isCounter = false) (hst : ctx.start = .s ss)
    (hend : ctx.endB = some (.s es)) :
    (isBoundaryValid ctx (some (.s cs)) = true ↔
      strLt cs ss = false ∧ strLt es cs = false) := by
  unfold isBoundaryValid
  rw [hst, hend]
  simp [hc]

theorem changeBoundary_counter_s (ctx : PartitionContext) (str : String) (delta : Int)
    (hc : ctx.isCounter = true) :
    changeBoundary ctx (.s str) delta = .s str := by
  unfold changeBoundary
  rw [if_pos hc]
  cases hstt : ctx.start <;> rfl

theorem changeBoundary_counter_none_eval (ctx : PartitionContext) (c s : Int)
    (delta : Int) (hc : ctx.isCounter = true) (hst : ctx.start = .n s)
    (hend : ctx.endB = none) :
    changeBoundary ctx (.n c) delta =
      (if s ≤ c + delta then .n (c + delta) else .n c) := by
  unfold changeBoundary
  rw [if_pos hc, hst, hend]
  simp [numOf]

theorem changeBoundary_counter_some_eval (ctx : PartitionContext) (c s ev : Int)
    (delta : Int) (hc : ctx.isCounter = true) (hst : ctx.start = .n s)
    (hend : ctx.endB = some (.n ev)) :
    changeBoundary ctx (.n c) delta =
      (if s ≤ c + delta ∧ c + delta ≤ ev then .n (c + delta) else .n c) := by
  unfold changeBoundary
  rw [if_pos hc, hst, hend]
  simp [numOf]

theorem changeBoundary_calendar_n (ctx : PartitionContext) (k : Int) (delta : Int)
    (hc : ctx.isCounter = false) :
    changeBoundary ctx (.n k) delta = .n k := by
  unfold changeBoundary
  rw [if_neg (by simp [hc])]

theorem changeBoundary_calendar_noparse (ctx : PartitionContext) (cs : String)
    (delta : Int) (hc : ctx.isCounter = false) (hp : navParseDate cs = none) :
    changeBoundary ctx (.s cs) delta = .s cs := by
  unfold changeBoundary
  rw [if_neg (by simp [hc])]
  simp [hp]

theorem changeBoundary_calendar_eval (ctx : PartitionContext) (cs ss es : String)
    (d0 : DT) (delta : Int)
    (hc : ctx.isCounter = false) (hst : ctx.start = .s ss)
    (hend : ctx.endB = some (.s es)) (hp : navParseDate cs = some d0) :
    changeBoundary ctx (.s cs) delta =
      (if strLt (if isTimeBased ctx.type = true then toISO (advanceNav ctx.type delta d0)
          else toISODate (advanceNav ctx.type delta d0)) ss = true then
        (if cs ≠ ss then .s ss else .s cs)
       else if strLt es (if isTimeBased ctx.type = true
          then toISO (advanceNav ctx.type delta d0)
          else toISODate (advanceNav ctx.type delta d0)) = false then
        .s (if isTimeBased ctx.type = true then toISO (advanceNav ctx.type delta d0)
          else toISODate (advanceNav ctx.type delta d0))
       else .s cs) := by
  unfold changeBoundary
  rw [if_neg (by simp [hc])]
  rw [hst, hend]
  simp only [hp]
  by_cases ht : isTimeBased ctx.type = true
  · simp only [ht, if_true]
    split_ifs <;> simp_all
  · simp only [ht, if_false]
    split_ifs <;> simp_all

theorem strLt_irrefl (s : String) : strLt s s = false :=
  charListLt_irrefl s.data

/-- C3 counterexample: with a Counter config `[0, 5]` and an out-of-range
current boundary `10`, the move `delta = 1` is refused and leaves the
boundary at `10`, which the Validator rejects — so the Navigator's output
does not always satisfy the Validator. -/
theorem c3_counterexample :
    ¬ (isBoundaryValid ⟨"CustomCounter", "C", .n 0, some (.n 5), true, "G"⟩
        (some (changeBoundary ⟨"CustomCounter", "C", .n 0, some (.n 5), true, "G"⟩
          (.n 10) 1)) = true) := by
  decide

/-- C3 (amended): provided the resolved configuration is well-formed
(`start <= end`) and the current boundary itself lies within the range,
the boundary produced by the Navigator always satisfies the Validator;
and a move whose candidate falls outside the range above `end` (or, for
counters, below `start`) leaves the current boundary unchanged. -/
theorem c3_navigator_in_range (ctx : PartitionContext) (current : BVal) (delta : Int)
    (hvalid : isBoundaryValid ctx (some current) = true)
    (hok : (ctx.isCounter = true ∧ ∃ s : Int, ctx.start = .n s ∧
              (ctx.endB = none ∨ ∃ ev : Int, ctx.endB = some (.n ev) ∧ s ≤ ev))
         ∨ (ctx.isCounter = false ∧ ∃ ss es : String, ctx.start = .s ss ∧
              ctx.endB = some (.s es) ∧ strLt es ss = false)) :
    isBoundaryValid ctx (some (changeBoundary ctx current delta)) = true ∧
    (∀ c s ev : Int, current = .n c → ctx.start = .n s → ctx.endB = some (.n ev) →
      (c + delta < s ∨ ev < c + delta) → changeBoundary ctx current delta = current) ∧
    (∀ cs ss es : String, ∀ d0 : DT, current = .s cs → ctx.start = .s ss →
      ctx.endB = some (.s es) → navParseDate cs = some d0 →
      strLt (if isTimeBased ctx.type = true then toISO (advanceNav ctx.type delta d0)
        else toISODate (advanceNav ctx.type delta d0)) ss = false →
      strLt es (if isTimeBased ctx.type = true then toISO (advanceNav ctx.type delta d0)
        else toISODate (advanceNav ctx.type delta d0)) = true →
      changeBoundary ctx current delta = current) := by
  refine ⟨?_, ?_, ?_⟩
  · rcases hok with ⟨hc, s, hst, hend⟩ | ⟨hc, ss, es, hst, hend, hse⟩
    · cases current with
      | s str =>
        rw [changeBoundary_counter_s ctx str delta hc]
        exact hvalid
      | n c =>
        rcases hend with hnone | ⟨ev, hsome, hle⟩
        · rw [changeBoundary_counter_none_eval ctx c s delta hc hst hnone]
          by_cases hcond : s ≤ c + delta
          · rw [if_pos hcond]
            exact (valid_counter_none_eval ctx (c + delta) s hc hst hnone).mpr (by omega)
          · rw [if_neg hcond]
            exact hvalid
        · rw [changeBoundary_counter_some_eval ctx c s ev delta hc hst hsome]
          by_cases hcond : s ≤ c + delta ∧ c + delta ≤ ev
          · rw [if_pos hcond]
            exact (valid_counter_some_eval ctx (c + delta) s ev hc hst hsome).mpr
              (by omega)
          · rw [if_neg hcond]
            exact hvalid
    · cases current with
      | n k =>
        rw [changeBoundary_calendar_n ctx k delta hc]
        exact hvalid
      | s cs =>
        cases hp : navParseDate cs with
        | none =>
          rw [changeBoundary_calendar_noparse ctx cs delta hc hp]
          exact hvalid
        | some d0 =>
          rw [changeBoundary_calendar_eval ctx cs ss es d0 delta hc hst hend hp]
          by_cases h1 : strLt (if isTimeBased ctx.type = true
              then toISO (advanceNav ctx.type delta d0)
              else toISODate (advanceNav ctx.type delta d0)) ss = true
          · rw [if_pos h1]
            by_cases h2 : cs ≠ ss
            · rw [if_pos h2]
              exact (valid_calendar_eval ctx ss ss es hc hst hend).mpr
                ⟨strLt_irrefl ss, hse⟩
            · rw [if_neg h2]
              exact hvalid
          · rw [if_neg h1]
            by_cases h2 : strLt es (if isTimeBased ctx.type = true
                then toISO (advanceNav ctx.type delta d0)
                else toISODate (advanceNav ctx.type delta d0)) = false
            · rw [if_pos h2]
              refine (valid_calendar_eval ctx _ ss es hc hst hend).mpr ⟨?_, h2⟩
              cases hx : strLt (if isTimeBased ctx.type = true
                  then toISO (advanceNav ctx.type delta d0)
                  else toISODate (advanceNav ctx.type delta d0)) ss with
              | false => rfl
              | true => exact absurd hx h1
            · rw [if_neg h2]
              exact hvalid
  · intro c s ev hcur hst hend hout
    subst hcur
    cases hcb : ctx.isCounter with
    | true =>
      rw [changeBoundary_counter_some_eval ctx c s ev delta hcb hst hend]
      rw [if_neg (by omega)]
    | false =>
      exact changeBoundary_calendar_n ctx c delta hcb
  · intro cs ss es d0 hcur hst hend hp hlow hhigh
    subst hcur
    cases hcb : ctx.isCounter with
    | true => exact changeBoundary_counter_s ctx cs delta hcb
    | false =>
      rw [changeBoundary_calendar_eval ctx cs ss es d0 delta hcb hst hend hp]
      rw [if_neg (by simp [hlow]), if_neg (by simp [hhigh])]

/-- C3 witness: the amended theorem applied to a concrete counter context
with a valid current boundary. -/
theorem c3_navigator_in_range_witness :
    isBoundaryValid ⟨"CustomCounter", "C", .n 0, some (.n 5), true, "G"⟩
      (some (changeBoundary ⟨"CustomCounter", "C", .n 0, some (.n 5), true, "G"⟩
        (.n 5) 1)) = true :=
  (c3_navigator_in_range ⟨"CustomCounter", "C", .n 0, some (.n 5), true, "G"⟩
    (.n 5) 1 (by decide)
    (Or.inl ⟨rfl, 0, rfl, Or.inr ⟨5, rfl, by omega⟩⟩)).1

/-- C5 counterexample: with a `PerMinute` scheme starting at 10:30, the
sequencer emits consecutive boundaries `...-02T10:30` and `...-03T10:30`,
but the navigator's single step from `...-02T10:30` re-parses only the
date part and lands on `...-03T00:00`, not on the sequencer's next
boundary: the two increment paths disagree for time-granularity keys. -/
theorem c5_counterexample :
    (calculateBoundaries ⟨"PerMinute", "PM", .s "2025-01-01T10:30:00.000Z",
        some (.s "2025-01-05T10:30:00.000Z"), false, "G"⟩ ⟨2026, 1, 1, 0⟩ 10).get? 1 =
      some "2025-01-02T10:30:00.000Z" ∧
    (calculateBoundaries ⟨"PerMinute", "PM", .s "2025-01-01T10:30:00.000Z",
        some (.s "2025-01-05T10:30:00.000Z"), false, "G"⟩ ⟨2026, 1, 1, 0⟩ 10).get? 2 =
      some "2025-01-03T10:30:00.000Z" ∧
    ¬ (changeBoundary ⟨"PerMinute", "PM", .s "2025-01-01T10:30:00.000Z",
        some (.s "2025-01-05T10:30:00.000Z"), false, "G"⟩
        (.s "2025-01-02T10:30:00.000Z") 1 = .s "2025-01-03T10:30:00.000Z") := by
  decide

/-- C5 (amended): for every date-granularity calendar scheme (Daily,
Weekly, BiWeekly, Monthly), if `b` and `b'` are consecutive boundaries in
the sequencer's output then applying the navigator's single-step increment
(`delta = +1`) to `b` yields exactly `b'`: the sequencer's and the
navigator's increment arithmetic agree on every date-granularity boundary. -/
theorem c5_navigator_matches_sequencer (ctx : PartitionContext) (now sd ed : DT)
    (fuel i : Nat) (a b : String)
    (hct : ctx.isCounter = false)
    (htype : ctx.type = "Daily" ∨ ctx.type = "Weekly" ∨ ctx.type = "BiWeekly" ∨
      ctx.type = "Monthly")
    (hs : ctx.start = .s (toISODate sd)) (he : ctx.endB = some (.s (toISODate ed)))
    (hps : parseISO (toISODate sd) = some sd) (hpe : parseISO (toISODate ed) = some ed)
    (hwfs : sd.WF) (hwfe : ed.WF) (hms0 : sd.ms = 0)
    (hys : 0 ≤ sd.year) (hye : ed.year < 10000)
    (ha : (calculateBoundaries ctx now fuel).get? i = some a)
    (hb : (calculateBoundaries ctx now fuel).get? (i + 1) = some b) :
    changeBoundary ctx (.s a) 1 = .s b := by
  have hnt : isTimeBased ctx.type = false := by
    rcases htype with h | h | h | h <;> rw [h] <;> decide
  have hred : calculateBoundaries ctx now fuel = calcCalendarAux ctx.type ed now fuel sd := by
    unfold calculateBoundaries
    rw [if_neg (by simp [hct]), hs, he]
    simp only [hps, hpe]
  rw [hred] at ha hb
  obtain ⟨c, hcwf, hcms, hcge, hfa, hfb, hde, hdn⟩ :=
    calcCalendarAux_consec ctx.type ed now fuel sd hwfs i a b ha hb
  have hcms0 : c.ms = 0 := by rw [hcms, hms0]
  obtain ⟨hstep, hwfadv, hmsadv⟩ := advanceSeq_spec ctx.type c hcwf
  have hdns : dayNum sd ≤ dayNum c :=
    dayNum_le_of_toMs_le sd c hwfs.2.2.2.2 hcwf.2.2.2.2 hcge
  have hdnse : dayNum (advanceSeq ctx.type c) ≤ dayNum ed :=
    dayNum_le_of_toMs_le _ ed hwfadv.2.2.2.2 hwfe.2.2.2.2 hde
  have hycsd : sd.year ≤ c.year := year_le_of_dayNum_le sd c hwfs hcwf hdns
  have hycadv : c.year ≤ (advanceSeq ctx.type c).year :=
    year_le_of_dayNum_le c (advanceSeq ctx.type c) hcwf hwfadv (by omega)
  have hyadved : (advanceSeq ctx.type c).year ≤ ed.year :=
    year_le_of_dayNum_le (advanceSeq ctx.type c) ed hwfadv hwfe hdnse
  have hyc0 : 0 ≤ c.year := by omega
  have hyc1 : c.year < 10000 := by omega
  have hya0 : 0 ≤ (advanceSeq ctx.type c).year := by omega
  have hya1 : (advanceSeq ctx.type c).year < 10000 := by omega
  have hys1 : sd.year < 10000 := by omega
  have hfa' : a = toISODate c := by
    rw [hfa]
    unfold getFormattedBoundary
    rw [if_neg (by simp [hnt])]
  have hfb' : b = toISODate (advanceSeq ctx.type c) := by
    rw [hfb]
    unfold getFormattedBoundary
    rw [if_neg (by simp [hnt])]
  have hp : navParseDate a = some c := by
    rw [hfa', navParseDate_toISODate c hcwf hyc0 hyc1, ← hcms0]
  have hlow : strLt (toISODate (advanceSeq ctx.type c)) (toISODate sd) = false := by
    cases hx : strLt (toISODate (advanceSeq ctx.type c)) (toISODate sd) with
    | false => rfl
    | true =>
      have := (strLt_toISODate_iff (advanceSeq ctx.type c) sd hwfadv hwfs
        hya0 hya1 hys hys1).mp hx
      omega
  have hhigh : strLt (toISODate ed) (toISODate (advanceSeq ctx.type c)) = false := by
    cases hx : strLt (toISODate ed) (toISODate (advanceSeq ctx.type c)) with
    | false => rfl
    | true =>
      have := (strLt_toISODate_iff ed (advanceSeq ctx.type c) hwfe hwfadv
        (by omega) hye hya0 hya1).mp hx
      omega
  rw [changeBoundary_calendar_eval ctx a (toISODate sd) (toISODate ed) c 1 hct hs he hp]
  rw [advanceNav_one]
  simp only [hnt, Bool.false_eq_true, if_false, hlow, hhigh]
  simp [hfb']

/-- C5 witness: the amended theorem on a concrete Daily context. -/
theorem c5_navigator_matches_sequencer_witness :
    changeBoundary ⟨"Daily", "D", .s "2025-01-01", some (.s "2025-01-05"), false, "G"⟩
      (.s "2025-01-01") 1 = .s "2025-01-02" :=
  c5_navigator_matches_sequencer
    ⟨"Daily", "D", .s "2025-01-01", some (.s "2025-01-05"), false, "G"⟩
    ⟨2026, 1, 1, 0⟩ ⟨2025, 1, 1, 0⟩ ⟨2025, 1, 5, 0⟩ 10 0 "2025-01-01" "2025-01-02"
    rfl (Or.inl rfl) (by decide) (by decide) (by decide) (by decide)
    (by decide) (by decide) (by decide) (by decide) (by decide)
    (by decide) (by decide)

/-- C7: the BoundarySequencer always terminates with a finite sequence —
once the fuel exceeds a computable bound (one loop step per day of the
range) the result no longer changes, and in every run each emitted
boundary is strictly greater than the previous one, the non-advancement
guard stopping the loop rather than letting it hang. -/
theorem c7_sequencer_terminates (ctx : PartitionContext) (now sd ed : DT) (s e : String)
    (hct : ctx.isCounter = false) (hs : ctx.start = .s s) (he : ctx.endB = some (.s e))
    (hps : parseISO s = some sd) (hpe : parseISO e = some ed)
    (hwf : sd.WF) (hend : ed.WF) (hys : 0 ≤ sd.year) (hye : ed.year < 10000) :
    (∀ f g : Nat,
      (ed.toMs - sd.toMs).toNat / msPerDay + 1 < f →
      (ed.toMs - sd.toMs).toNat / msPerDay + 1 < g →
      calculateBoundaries ctx now f = calculateBoundaries ctx now g) ∧
    (∀ f : Nat, List.Chain' (fun a b => strLt a b = true)
      (calculateBoundaries ctx now f)) := by
  have hred : ∀ f : Nat,
      calculateBoundaries ctx now f = calcCalendarAux ctx.type ed now f sd := by
    intro f
    unfold calculateBoundaries
    rw [if_neg (by simp [hct]), hs, he]
    simp only [hps, hpe]
  constructor
  · intro f g hf hg
    rw [hred f, hred g]
    refine calcCalendarAux_stable ctx.type ed now
      ((ed.toMs - sd.toMs).toNat / msPerDay + 1) sd f g hwf ?_ hf hg
    unfold msPerDay at *
    omega
  · intro f
    rw [hred f]
    exact calcCalendarAux_chain ctx.type ed now hend hye f sd hwf hys

/-- C7 witness: the termination bound and the chain property on a concrete
Daily context. -/
theorem c7_sequencer_terminates_witness :
    calculateBoundaries ⟨"Daily", "D", .s "2025-01-01", some (.s "2025-01-05"), false, "G"⟩
        ⟨2026, 1, 1, 0⟩ 10 =
      calculateBoundaries ⟨"Daily", "D", .s "2025-01-01", some (.s "2025-01-05"), false, "G"⟩
        ⟨2026, 1, 1, 0⟩ 20 :=
  (c7_sequencer_terminates
    ⟨"Daily", "D", .s "2025-01-01", some (.s "2025-01-05"), false, "G"⟩
    ⟨2026, 1, 1, 0⟩ ⟨2025, 1, 1, 0⟩ ⟨2025, 1, 5, 0⟩ "2025-01-01" "2025-01-05"
    rfl rfl rfl (by decide) (by decide) (by decide) (by decide) (by decide)
    (by decide)).1 10 20 (by decide) (by decide)
